import Mathlib

/-!
Verification development for the comex-document-analyzer repository.

The Python sources `src/app.py` (cross-document reconciliation) and
`src/extractors/field_extractor.py` (cascading field resolution) are shallowly
embedded below: pure Python functions become Lean functions, `re` searches are
modelled by a small backtracking matcher over the exact pattern subset the
sources use, floats become rationals, and Python dicts become association
lists.  External effects (the OpenAI HTTP call of `_call_openai_json`) are
modelled as an explicit `Option` parameter.
-/

namespace Comex

/-! ## Python string primitives -/

/-- Python `\s` character class restricted to ASCII, which is the alphabet the
documents use: space, tab, newline, carriage return, vertical tab, form feed. -/
def isSpaceCharB (c : Char) : Bool :=
  c = ' ' || c = '\t' || c = '\n' || c = '\r' || c = '\x0b' || c = '\x0c'

/-- Python `\w` (word character) for the `\b` boundary: alphanumeric or underscore. -/
def isWordCharB (c : Char) : Bool :=
  c.isAlphanum || c = '_'

/-- Python `str.lower` restricted to ASCII letters (all concrete inputs considered
here are ASCII; pattern literals are compared case-insensitively the same way). -/
def lowerStr (s : String) : String :=
  String.mk (s.toList.map Char.toLower)

/-- Python `str.splitlines` for the terminators that occur in the texts handled
here: `\n`, `\r\n` and `\r`.  A trailing partial line is emitted only when
non-empty, and the empty string yields no lines, exactly as in Python. -/
def splitlinesAux : List Char → List Char → List String
  | [], acc => if acc.isEmpty then [] else [String.mk acc.reverse]
  | '\r' :: '\n' :: rest, acc => String.mk acc.reverse :: splitlinesAux rest []
  | '\r' :: rest, acc => String.mk acc.reverse :: splitlinesAux rest []
  | '\n' :: rest, acc => String.mk acc.reverse :: splitlinesAux rest []
  | c :: rest, acc => splitlinesAux rest (c :: acc)

def splitlinesPy (s : String) : List String :=
  splitlinesAux s.toList []

/-- Collapse every run of whitespace into a single space, the effect of
`re.sub(r"\s+", " ", value)`.  The boolean records whether the previous
character belonged to a whitespace run. -/
def collapseWsAux : Bool → List Char → List Char
  | _, [] => []
  | prevWs, c :: rest =>
    if isSpaceCharB c then
      if prevWs then collapseWsAux true rest else ' ' :: collapseWsAux true rest
    else c :: collapseWsAux false rest

/-- Characters stripped by `str.strip(" :-\t")` in the field extractor. -/
def isStripCharB (c : Char) : Bool :=
  c = ' ' || c = ':' || c = '-' || c = '\t'

def stripBoth (p : Char → Bool) (l : List Char) : List Char :=
  ((l.dropWhile p).reverse.dropWhile p).reverse

/-- `normalize_spaces` of `src/extractors/field_extractor.py`:
`re.sub(r"\s+", " ", value).strip(" :-\t")`. -/
def normalizeSpacesFE (s : String) : String :=
  String.mk (stripBoth isStripCharB (collapseWsAux false s.toList))

/-- First `some` produced by `f` over the list, in order (models Python loops
that `return`/`break` on the first hit). -/
def firstSome : List α → (α → Option β) → Option β
  | [], _ => none
  | x :: xs, f => match f x with
    | some b => some b
    | none => firstSome xs f

/-- Whether `needle` occurs as a contiguous substring of `hay` (Python `in`).
The empty needle matches everything, as in Python. -/
def startsWithL : List Char → List Char → Bool
  | _, [] => true
  | [], _ :: _ => false
  | h :: hs, n :: ns => h = n && startsWithL hs ns

def containsSub : List Char → List Char → Bool
  | hay, needle =>
    if startsWithL hay needle then true
    else match hay with
      | [] => false
      | _ :: rest => containsSub rest needle

/-! ## A backtracking matcher for the regular-expression subset of the sources

Every pattern in `field_extractor.py` is compiled with `re.IGNORECASE` and is
built from: literal words, greedy character-class repetitions `C{lo,hi}` /
`C{lo,}` / `C*` / `C+`, alternation, greedy option `(?:...)?`, and the word
boundary `\b`.  `RE` is that subset; case-insensitivity is baked into literal
comparison and into the character classes. -/

/-- The character classes appearing in `FIELD_VALUE_PATTERNS` and the NER
fallback patterns (under `re.IGNORECASE`, so `[A-Z]` also matches lowercase). -/
inductive CClass where
  | ucnum      -- `[A-Z0-9\-/]` (IGNORECASE)
  | digit      -- `[0-9]`
  | dateSep    -- `[./\-]`
  | entity     -- `[A-Za-z0-9&.,\-\s]`
  | cnpj       -- `[0-9./\-]`
  | desc       -- `[A-Za-z0-9,./\-\s]`
  | num        -- `[0-9.,]`
  | alphaSp    -- `[A-Za-z\s]`
  | alpha      -- `[A-Za-z]`, also `[A-Z]` under IGNORECASE
  | ws         -- `\s`
  | sep        -- `[:\-]`
  | notNl      -- `[^\n]`
deriving DecidableEq

def CClass.mem : CClass → Char → Bool
  | .ucnum, c => c.isAlpha || c.isDigit || c = '-' || c = '/'
  | .digit, c => c.isDigit
  | .dateSep, c => c = '.' || c = '/' || c = '-'
  | .entity, c => c.isAlpha || c.isDigit || c = '&' || c = '.' || c = ',' || c = '-' || isSpaceCharB c
  | .cnpj, c => c.isDigit || c = '.' || c = '/' || c = '-'
  | .desc, c => c.isAlpha || c.isDigit || c = ',' || c = '.' || c = '/' || c = '-' || isSpaceCharB c
  | .num, c => c.isDigit || c = '.' || c = ','
  | .alphaSp, c => c.isAlpha || isSpaceCharB c
  | .alpha, c => c.isAlpha
  | .ws, c => isSpaceCharB c
  | .sep, c => c = ':' || c = '-'
  | .notNl, c => !(c = '\n')

inductive RE where
  | eps
  | str (lit : String)
  | rep (cl : CClass) (lo : Nat) (hi : Option Nat)
  | seq (a b : RE)
  | alt (a b : RE)
  | opt (a : RE)
  | bnd
deriving DecidableEq

def seqs (l : List RE) : RE := l.foldr RE.seq RE.eps

/-- Matcher state: the character immediately before the remaining input (for
`\b`), and the remaining input. -/
abbrev MState := Option Char × List Char

/-- Case-insensitive literal match consuming a prefix of the input. -/
def matchLitCI : List Char → Option Char → List Char → List MState
  | [], prev, s => [(prev, s)]
  | l :: ls, _, s =>
    match s with
    | [] => []
    | c :: cs => if c.toLower = l.toLower then matchLitCI ls (some c) cs else []

/-- Greedy states of a character-class repetition: the longest take first,
down to `lo` repetitions, never past `hi` or the class run. -/
def repStates (cl : CClass) (lo : Nat) (hi : Option Nat) (prev : Option Char)
    (s : List Char) : List MState :=
  let m := (s.takeWhile cl.mem).length
  let maxK := match hi with
    | some h => min m h
    | none => m
  if maxK < lo then []
  else (List.range (maxK + 1 - lo)).map (fun i =>
    let k := maxK - i
    (match (s.take k).getLast? with
     | some c => some c
     | none => prev, s.drop k))

def isWordOpt : Option Char → Bool
  | some c => isWordCharB c
  | none => false

/-- All ways the expression can consume a prefix of the input, listed in the
backtracking priority order of Python's `re` (greedy, left alternative first). -/
def runRE : RE → Option Char → List Char → List MState
  | .eps, prev, s => [(prev, s)]
  | .str lit, prev, s => matchLitCI lit.toList prev s
  | .rep cl lo hi, prev, s => repStates cl lo hi prev s
  | .seq a b, prev, s => (runRE a prev s).flatMap (fun st => runRE b st.1 st.2)
  | .alt a b, prev, s => runRE a prev s ++ runRE b prev s
  | .opt a, prev, s => runRE a prev s ++ [(prev, s)]
  | .bnd, prev, s => if isWordOpt prev != isWordOpt s.head? then [(prev, s)] else []

/-- Try to match `pre ( cap ) suf` anchored at the current position, returning
the characters consumed by the capturing group of the first full match. -/
def tryFrom (pre cap suf : RE) (prev : Option Char) (s : List Char) : Option (List Char) :=
  firstSome (runRE pre prev s) (fun st1 =>
    firstSome (runRE cap st1.1 st1.2) (fun st2 =>
      if (runRE suf st2.1 st2.2).isEmpty then none
      else some (st1.2.take (st1.2.length - st2.2.length))))

/-- `re.search` over positions left to right, yielding group 1 of the leftmost
match (Python semantics: earliest start position wins, then backtracking order). -/
def searchAux (pre cap suf : RE) : Option Char → List Char → Option (List Char)
  | prev, s =>
    match tryFrom pre cap suf prev s with
    | some g => some g
    | none =>
      match s with
      | [] => none
      | c :: rest => searchAux pre cap suf (some c) rest

/-- `re.search(pre(cap)suf, s, re.IGNORECASE)` returning `group(1)`. -/
def reSearch (pre cap suf : RE) (s : String) : Option String :=
  (searchAux pre cap suf none s.toList).map String.mk

/-! ## `src/extractors/field_extractor.py`: data tables -/

def CONFIDENCE_THRESHOLD : ℚ := 75/100

def CANONICAL_FIELDS : List String :=
  ["document_number", "invoice_number", "packing_list_number", "bl_number",
   "issue_date", "shipment_date", "issue_or_shipment_date", "po_number",
   "shipper", "consignee", "consignee_cnpj", "goods_description",
   "freight_value", "freight_term", "origin_country", "provenance_country",
   "acquisition_country", "destination_country", "pol", "pod", "incoterm",
   "currency", "net_weight", "gross_weight", "volume_cbm", "package_count",
   "ncm", "total_value", "etd", "eta"]

structure Candidate where
  value : String
  confidence : ℚ
deriving DecidableEq

/-- The `ALIASES` dict; fields not listed map to `[]` (`ALIASES.get(field, [])`). -/
def ALIASES : String → List String
  | "document_number" => ["document number", "número do documento", "doc no"]
  | "invoice_number" => ["invoice no", "invoice number", "inv#", "commercial invoice number"]
  | "packing_list_number" => ["packing list no", "packing list number", "p/l number"]
  | "bl_number" => ["bill of lading no", "bl no", "b/l number"]
  | "issue_date" => ["issue date", "data de emissão", "invoice date"]
  | "shipment_date" => ["shipment date", "embarque", "shipping date"]
  | "issue_or_shipment_date" => ["data de emissão / embarque", "issue/shipment date"]
  | "po_number" => ["po no", "purchase order", "ordem de compra", "order no"]
  | "shipper" => ["shipper", "exporter", "exportador", "seller"]
  | "consignee" => ["consignee", "importador", "buyer", "importer"]
  | "consignee_cnpj" => ["cnpj do importador", "cnpj consignee", "consignee tax id"]
  | "goods_description" => ["description of goods", "descrição da mercadoria", "commodity"]
  | "freight_value" => ["freight value", "valor do frete", "freight amount"]
  | "freight_term" => ["freight term", "condição do frete", "freight condition"]
  | "origin_country" => ["country of origin", "país de origem", "made in"]
  | "provenance_country" => ["país de procedência", "country of provenance"]
  | "acquisition_country" => ["país de aquisição", "country of acquisition"]
  | "destination_country" => ["destination", "destination country", "country of destination"]
  | "pol" => ["port of loading", "pol", "porto de carregamento"]
  | "pod" => ["port of discharge", "pod", "porto de descarga"]
  | "incoterm" => ["incoterm", "terms of delivery", "trade term"]
  | "currency" => ["currency", "curr", "invoice currency"]
  | "net_weight" => ["net weight", "peso líquido", "n.w.", "nw"]
  | "gross_weight" => ["gross weight", "peso bruto", "g.w.", "gw"]
  | "volume_cbm" => ["cbm", "cubagem", "volume"]
  | "package_count" => ["total packages", "packages", "quantidade de volumes", "cartons"]
  | "ncm" => ["ncm", "ncms", "hs code", "hscode"]
  | "total_value" => ["total amount", "total value", "amount due", "invoice total"]
  | "etd" => ["etd", "estimated time of departure", "departure date"]
  | "eta" => ["eta", "estimated time of arrival", "arrival date"]
  | _ => []

/-- `DOC_TYPE_PROFILES[...]["field_priority"]`, keyed by the lowered doc type;
`none` for types without a profile. -/
def profileFieldPriority : String → Option (List String)
  | "invoice" => some
      ["invoice_number", "document_number", "issue_date", "po_number", "shipper",
       "consignee", "consignee_cnpj", "goods_description", "total_value", "currency",
       "freight_value", "freight_term", "incoterm", "origin_country",
       "provenance_country", "acquisition_country", "destination_country",
       "net_weight", "gross_weight", "volume_cbm", "package_count", "ncm"]
  | "packing_list" => some
      ["packing_list_number", "document_number", "shipment_date",
       "issue_or_shipment_date", "po_number", "shipper", "consignee",
       "consignee_cnpj", "goods_description", "origin_country",
       "destination_country", "net_weight", "gross_weight", "volume_cbm",
       "package_count", "ncm"]
  | "bl" => some
      ["bl_number", "document_number", "shipment_date", "issue_or_shipment_date",
       "shipper", "consignee", "consignee_cnpj", "goods_description",
       "freight_term", "origin_country", "destination_country", "pol", "pod",
       "etd", "eta", "net_weight", "gross_weight", "volume_cbm", "package_count"]
  | _ => none

/-- `DOC_TYPE_PROFILES[...]["aliases"]`: extra aliases per (lowered doc type, field). -/
def profileAliases : String → String → List String
  | "invoice", "invoice_number" => ["invoice n°", "invoice nr", "invoice num"]
  | "invoice", "issue_date" => ["date of issue", "invoice issued on"]
  | "packing_list", "packing_list_number" => ["p/l no", "packing list n°", "packing no"]
  | "packing_list", "package_count" => ["qty packages", "number of packages"]
  | "bl", "bl_number" => ["b/l no", "bol no", "bill of lading number"]
  | "bl", "pol" => ["load port", "port load"]
  | "bl", "pod" => ["discharge port", "port discharge"]
  | _, _ => []

def DOC_NUMBER_FALLBACK_BY_TYPE : String → Option String
  | "invoice" => some "invoice_number"
  | "packing_list" => some "packing_list_number"
  | "bl" => some "bl_number"
  | _ => none

/-! `FIELD_VALUE_PATTERNS`, each regex split as (prefix, capturing group, suffix). -/

def spStar : RE := .rep .ws 0 none

/-- `(?:no|number|#)?` with Python's alternation priority. -/
def qualOpt : RE := .opt (.alt (.str "no") (.alt (.str "number") (.str "#")))

/-- `[:\-]?` -/
def sepOpt : RE := .opt (.rep .sep 1 (some 1))

/-- `\s*(?:no|number|#)?\s*[:\-]?\s*`, the glue of `_match_after_alias`. -/
def aliasGlue : RE := seqs [spStar, qualOpt, spStar, sepOpt, spStar]

/-- `([0-9]{1,4}[./\-][0-9]{1,2}[./\-][0-9]{1,4})` -/
def dateCap : RE :=
  seqs [.rep .digit 1 (some 4), .rep .dateSep 1 (some 1), .rep .digit 1 (some 2),
        .rep .dateSep 1 (some 1), .rep .digit 1 (some 4)]

/-- `([0-9][0-9.,]*)` -/
def numCap : RE := .seq (.rep .digit 1 (some 1)) (.rep .num 0 none)

/-- `([0-9][0-9.,]*\s*[A-Za-z]{0,3})` -/
def weightCap : RE :=
  seqs [.rep .digit 1 (some 1), .rep .num 0 none, spStar, .rep .alpha 0 (some 3)]

/-- `([0-9][0-9.,]*\s*(?:CBM|M3)?)` -/
def volCap : RE :=
  seqs [.rep .digit 1 (some 1), .rep .num 0 none, spStar,
        .opt (.alt (.str "CBM") (.str "M3"))]

/-- `([0-9]{4,8}(?:\.[0-9]{2})?)` -/
def ncmCap : RE :=
  .seq (.rep .digit 4 (some 8)) (.opt (.seq (.str ".") (.rep .digit 2 (some 2))))

/-- `FIELD_VALUE_PATTERNS` as (prefix, capture, suffix).  The source dict covers
every canonical field and is only ever indexed with canonical fields (a missing
key would raise `KeyError`); other strings map to a never-matching pattern. -/
def fieldPattern : String → RE × RE × RE
  | "document_number" => (.eps, .rep .ucnum 3 none, .eps)
  | "invoice_number" => (.eps, .rep .ucnum 4 none, .eps)
  | "packing_list_number" => (.eps, .rep .ucnum 4 none, .eps)
  | "bl_number" => (.eps, .rep .ucnum 4 none, .eps)
  | "issue_date" => (.eps, dateCap, .eps)
  | "shipment_date" => (.eps, dateCap, .eps)
  | "issue_or_shipment_date" => (.eps, dateCap, .eps)
  | "po_number" => (.eps, .rep .ucnum 3 none, .eps)
  | "shipper" => (.eps, .rep .entity 3 none, .eps)
  | "consignee" => (.eps, .rep .entity 3 none, .eps)
  | "consignee_cnpj" => (.eps, .rep .cnpj 14 (some 20), .eps)
  | "goods_description" => (.eps, .rep .desc 5 none, .eps)
  | "freight_value" => (.eps, numCap, .eps)
  | "freight_term" => (.eps, .rep .alphaSp 3 none, .eps)
  | "origin_country" => (.eps, .rep .alphaSp 3 none, .eps)
  | "provenance_country" => (.eps, .rep .alphaSp 3 none, .eps)
  | "acquisition_country" => (.eps, .rep .alphaSp 3 none, .eps)
  | "destination_country" => (.eps, .rep .alphaSp 3 none, .eps)
  | "pol" => (.eps, .rep .alphaSp 3 none, .eps)
  | "pod" => (.eps, .rep .alphaSp 3 none, .eps)
  | "incoterm" => (.bnd, .rep .alpha 3 (some 3), .bnd)
  | "currency" => (.bnd, .rep .alpha 3 (some 3), .bnd)
  | "net_weight" => (.eps, weightCap, .eps)
  | "gross_weight" => (.eps, weightCap, .eps)
  | "volume_cbm" => (.eps, volCap, .eps)
  | "package_count" => (.eps, numCap, .eps)
  | "ncm" => (.eps, ncmCap, .eps)
  | "total_value" => (.eps, numCap, .eps)
  | "etd" => (.eps, dateCap, .eps)
  | "eta" => (.eps, dateCap, .eps)
  | _ => (.eps, .rep .digit 1 (some 0), .eps)

/-! ## `src/extractors/field_extractor.py`: the three resolution layers -/

/-- `_resolve_profile(doc_type)`: the in-scope field priority list and the
alias map (base `ALIASES` for every canonical field, extended by the profile's
extra aliases).  `insertAt` is Python `list.insert`. -/
def insertAt (i : Nat) (a : α) (l : List α) : List α :=
  l.take i ++ a :: l.drop i

def resolveProfile (docType : String) : List String × (String → List String) :=
  let dtl := lowerStr docType
  let fieldPriority := (profileFieldPriority dtl).getD CANONICAL_FIELDS
  let fields0 := fieldPriority.filter (fun f => CANONICAL_FIELDS.contains f)
  let fields :=
    if fields0.contains "document_number" then fields0
    else insertAt (if fields0.length > 1 then 1 else 0) "document_number" fields0
  (fields, fun f =>
    (if CANONICAL_FIELDS.contains f then ALIASES f else []) ++ profileAliases dtl f)

/-- `_match_after_alias(line, alias, field)`: search
`re.escape(alias)\s*(?:no|number|#)?\s*[:\-]?\s*<pattern>` in the line and wrap
group 1, normalized, with confidence 0.92. -/
def matchAfterAlias (line al field : String) : Option Candidate :=
  let p := fieldPattern field
  (reSearch (.seq (.str al) (.seq aliasGlue p.1)) p.2.1 p.2.2 line).map
    (fun g => ⟨normalizeSpacesFE g, 92/100⟩)

/-- Layer A inner loops: first line, then first alias, producing a candidate
with a non-empty value (`if candidate and candidate.value`). -/
def layerAField (lines : List String) (aliases : List String) (field : String) :
    Option Candidate :=
  firstSome lines (fun line =>
    firstSome aliases (fun al =>
      match matchAfterAlias line al field with
      | some c => if c.value = "" then none else some c
      | none => none))

def layerAGo (lines : List String) (amap : String → List String) :
    List String → List (String × Candidate)
  | [] => []
  | f :: fs =>
    match layerAField lines (amap f) f with
    | some c => (f, c) :: layerAGo lines amap fs
    | none => layerAGo lines amap fs

/-- `layer_a_alias_regex(lines, fields_priority, aliases_map)`. -/
def layer_a_alias_regex (lines : List String) (fieldsPriority : List String)
    (amap : String → List String) : List (String × Candidate) :=
  layerAGo lines amap fieldsPriority

def containsKey [BEq α] (m : List (α × β)) (k : α) : Bool :=
  (List.lookup k m).isSome

/-- `_extract_from_window(window, field)`: first window line whose pattern
search yields a non-empty normalized value, confidence 0.8. -/
def extractFromWindow (window : List String) (field : String) : Option Candidate :=
  let p := fieldPattern field
  firstSome window (fun line =>
    match reSearch p.1 p.2.1 p.2.2 line with
    | some g =>
      let v := normalizeSpacesFE g
      if v = "" then none else some ⟨v, 8/10⟩
    | none => none)

/-- `lines[max(0, idx-2):min(len(lines), idx+3)]` (Nat subtraction is the
`max(0, ...)`). -/
def windowSlice (lines : List String) (idx : Nat) : List String :=
  (lines.drop (idx - 2)).take (min lines.length (idx + 3) - (idx - 2))

/-- Does line `idx` contain one of the aliases, case-insensitively
(`any(alias.lower() in line.lower() for alias in aliases)`)? -/
def anchorHit (lines : List String) (idx : Nat) (aliases : List String) : Bool :=
  match lines.get? idx with
  | some line => aliases.any (fun al => containsSub (lowerStr line).toList (lowerStr al).toList)
  | none => false

def layerBField (lines : List String) (aliases : List String) (field : String) :
    Option Candidate :=
  firstSome (List.range lines.length) (fun idx =>
    if anchorHit lines idx aliases then extractFromWindow (windowSlice lines idx) field
    else none)

def layerBGo (lines : List String) (amap : String → List String) :
    List String → List (String × Candidate) → List (String × Candidate)
  | [], acc => acc
  | f :: fs, acc =>
    if containsKey acc f then layerBGo lines amap fs acc
    else
      match layerBField lines (amap f) f with
      | some c => layerBGo lines amap fs (acc ++ [(f, c)])
      | none => layerBGo lines amap fs acc

/-- The line list both `layer_b_context` and `parse_fields` build:
`[normalize_spaces(line) for line in raw_text.splitlines() if normalize_spaces(line)]`. -/
def pyLines (raw : String) : List String :=
  (splitlinesPy raw).filterMap (fun l =>
    let n := normalizeSpacesFE l
    if n = "" then none else some n)

/-- `layer_b_context(raw_text, already_resolved, fields_priority, aliases_map)`. -/
def layer_b_context (raw : String) (already : List (String × Candidate))
    (fieldsPriority : List String) (amap : String → List String) :
    List (String × Candidate) :=
  layerBGo (pyLines raw) amap fieldsPriority already

/-- The fixed `(field, pattern)` table of `_ner_style_fallback`, each pattern
split as (prefix, capture); the whole raw text is searched. -/
def NER_PATTERNS : List (String × RE × RE) :=
  [("invoice_number",
    seqs [.str "invoice", spStar, qualOpt, spStar, sepOpt, spStar],
    .rep .ucnum 4 none),
   ("packing_list_number",
    seqs [.str "packing", spStar, .str "list", spStar, qualOpt, spStar, sepOpt, spStar],
    .rep .ucnum 4 none),
   ("bl_number",
    seqs [.alt (seqs [.str "bill", spStar, .str "of", spStar, .str "lading"])
              (seqs [.str "b", .opt (.str "/"), .str "l"]),
          spStar, qualOpt, spStar, sepOpt, spStar],
    .rep .ucnum 4 none),
   ("po_number",
    seqs [.alt (.str "po")
              (.alt (seqs [.str "purchase", spStar, .str "order"])
                    (seqs [.str "ordem", spStar, .str "de", spStar, .str "compra"])),
          spStar, qualOpt, spStar, sepOpt, spStar],
    .rep .ucnum 3 none),
   ("consignee_cnpj",
    seqs [.str "cnpj", spStar,
          .opt (.alt (seqs [.str "do", spStar, .str "importador"]) (.str "consignee")),
          spStar, sepOpt, spStar],
    .rep .cnpj 14 (some 20)),
   ("goods_description",
    seqs [.alt (seqs [.str "description", spStar, .str "of", spStar, .str "goods"])
              (seqs [.str "descrição", spStar, .str "da", spStar, .str "mercadoria"]),
          spStar, sepOpt, spStar],
    .rep .notNl 5 (some 120)),
   ("freight_value",
    seqs [.alt (seqs [.str "freight", spStar, .str "value"])
              (seqs [.str "valor", spStar, .str "do", spStar, .str "frete"]),
          spStar, sepOpt, spStar],
    .rep .num 1 none),
   ("freight_term",
    seqs [.alt (seqs [.str "freight", spStar, .str "term"])
              (seqs [.str "condição", spStar, .str "do", spStar, .str "frete"]),
          spStar, sepOpt, spStar],
    .rep .notNl 3 (some 40)),
   ("pol",
    seqs [.alt (seqs [.str "port", spStar, .str "of", spStar, .str "loading"])
              (.alt (.str "pol")
                    (seqs [.str "porto", spStar, .str "de", spStar, .str "carregamento"])),
          spStar, sepOpt, spStar],
    .rep .notNl 3 (some 40)),
   ("pod",
    seqs [.alt (seqs [.str "port", spStar, .str "of", spStar, .str "discharge"])
              (.alt (.str "pod")
                    (seqs [.str "porto", spStar, .str "de", spStar, .str "descarga"])),
          spStar, sepOpt, spStar],
    .rep .notNl 3 (some 40)),
   ("volume_cbm",
    seqs [.alt (.str "cbm") (.str "cubagem"), spStar, sepOpt, spStar],
    seqs [.rep .num 1 none, .opt (seqs [spStar, .alt (.str "CBM") (.str "M3")])]),
   ("ncm",
    seqs [.alt (.str "ncm") (.alt (.str "ncms") (seqs [.str "hs", spStar, .str "code"])),
          spStar, sepOpt, spStar],
    ncmCap)]

/-- Replace the value of the first binding of `key` (Python dict assignment for
an existing key). -/
def updateAssoc : List (String × String) → String → String → List (String × String)
  | [], _, _ => []
  | (k, v) :: rest, key, val =>
    if k = key then (k, val) :: rest else (k, v) :: updateAssoc rest key val

def valGet (m : List (String × String)) (k : String) : String :=
  (List.lookup k m).getD ""

/-- Python dict assignment: update the key if present, else append it. -/
def setOrAppend (m : List (String × String)) (k v : String) : List (String × String) :=
  if containsKey m k then updateAssoc m k v else m ++ [(k, v)]

/-- One step of the pattern loop of `_ner_style_fallback`: when the field is a
key of the dict, overwrite it with the normalized group of a whole-text search
if one matches. -/
def nerStep (raw : String) (acc : List (String × String)) (p : String × RE × RE) :
    List (String × String) :=
  if containsKey acc p.1 then
    match reSearch p.2.1 p.2.2 .eps raw with
    | some g => updateAssoc acc p.1 (normalizeSpacesFE g)
    | none => acc
  else acc

/-- The regex pass of `_ner_style_fallback`: start from `{k: "" for k in
fields_priority}` and run `nerStep` over the fixed table. -/
def patternPass (raw : String) (fieldsPriority : List String) : List (String × String) :=
  NER_PATTERNS.foldl (nerStep raw) (fieldsPriority.map (fun k => (k, "")))

/-- The document-number mirror of `_ner_style_fallback` (line 369-371). -/
def nerDocNumMirror (docType : String) (m : List (String × String)) :
    List (String × String) :=
  match DOC_NUMBER_FALLBACK_BY_TYPE (lowerStr docType) with
  | some fb =>
    if containsKey m "document_number" ∧ containsKey m fb ∧ valGet m fb ≠ "" then
      updateAssoc m "document_number" (valGet m fb)
    else m
  | none => m

/-- The `("issue_or_shipment_date", "etd")` mirror (lines 373-375). -/
def nerDateMirror1 (m : List (String × String)) : List (String × String) :=
  if valGet m "issue_or_shipment_date" = "" ∧ valGet m "etd" ≠ "" then
    setOrAppend m "issue_or_shipment_date" (valGet m "etd")
  else m

/-- The `("shipment_date", "etd")` mirror (lines 373-375). -/
def nerDateMirror2 (m : List (String × String)) : List (String × String) :=
  if valGet m "shipment_date" = "" ∧ valGet m "etd" ≠ "" then
    setOrAppend m "shipment_date" (valGet m "etd")
  else m

/-- `_ner_style_fallback(raw_text, fields_priority, doc_type)`: the pattern
pass, the document-number mirror, then the two date mirrors in source order. -/
def nerStyleFallback (raw : String) (fieldsPriority : List String) (docType : String) :
    List (String × String) :=
  nerDateMirror2 (nerDateMirror1 (nerDocNumMirror docType (patternPass raw fieldsPriority)))

/-- The post-processing `_call_openai_json` applies to a successful provider
response: `{k: normalize_spaces(str(parsed.get(k, ""))) for k in fields_priority}`.
The HTTP call itself is external I/O; `llmRaw` stands for the parsed JSON body
(`none` = provider absent, unreachable, or returned unparsable output). -/
def callOpenaiJson (llmRaw : Option (List (String × String)))
    (fieldsPriority : List String) : Option (List (String × String)) :=
  llmRaw.map (fun parsed => fieldsPriority.map (fun k => (k, normalizeSpacesFE (valGet parsed k))))

def layerCGo (table : List (String × String)) :
    List String → List (String × Candidate) → List (String × Candidate)
  | [], acc => acc
  | f :: fs, acc =>
    if containsKey acc f then layerCGo table fs acc
    else
      let v := normalizeSpacesFE (valGet table f)
      if v = "" then layerCGo table fs acc
      else layerCGo table fs (acc ++ [(f, ⟨v, 7/10⟩)])

/-- `layer_c_llm_ner(raw_text, already_resolved, fields_priority, doc_type)`:
use the provider result when truthy (a non-empty dict), else the local NER
fallback; then fill the still-unresolved fields at confidence 0.7. -/
def layer_c_llm_ner (raw : String) (already : List (String × Candidate))
    (fieldsPriority : List String) (docType : String)
    (llmRaw : Option (List (String × String))) : List (String × Candidate) :=
  let table :=
    match callOpenaiJson llmRaw fieldsPriority with
    | some m => if m.isEmpty then nerStyleFallback raw fieldsPriority docType else m
    | none => nerStyleFallback raw fieldsPriority docType
  layerCGo table fieldsPriority already

/-- `_apply_document_number_fallback(resolved, doc_type)`. -/
def applyDocumentNumberFallback (resolved : List (String × Candidate)) (docType : String) :
    List (String × Candidate) :=
  match DOC_NUMBER_FALLBACK_BY_TYPE (lowerStr docType) with
  | none => resolved
  | some fb =>
    if containsKey resolved "document_number" then resolved
    else
      match List.lookup fb resolved with
      | none => resolved
      | some c => resolved ++ [("document_number", ⟨c.value, c.confidence⟩)]

structure FieldResult where
  value : String
  source_layer : String
  confidence : ℚ
  pending_review : Bool
deriving DecidableEq

/-- Python `round(x, 2)`.  Banker's rounding and half-up differ only on exact
odd half-hundredths, which none of the engine's confidences (0.92, 0.8, 0.7,
0.0) produce. -/
def round2 (q : ℚ) : ℚ := (round (q * 100) : ℤ) / 100

/-- The successive pipeline states of `parse_fields`. -/
def layerAOf (raw docType : String) : List (String × Candidate) :=
  layer_a_alias_regex (pyLines raw) (resolveProfile docType).1 (resolveProfile docType).2

def layerBOf (raw docType : String) : List (String × Candidate) :=
  layer_b_context raw (layerAOf raw docType) (resolveProfile docType).1 (resolveProfile docType).2

def layerCOf (raw docType : String) (llmRaw : Option (List (String × String))) :
    List (String × Candidate) :=
  layer_c_llm_ner raw (layerBOf raw docType) (resolveProfile docType).1 docType llmRaw

def resolvedOf (raw docType : String) (llmRaw : Option (List (String × String))) :
    List (String × Candidate) :=
  applyDocumentNumberFallback (layerCOf raw docType llmRaw) docType

/-- `parse_fields(raw_text, doc_type, confidence_threshold)`: run the three
layers, the document-number fallback, and assemble one `FieldResult` per
canonical field. -/
def parse_fields (raw docType : String)
    (llmRaw : Option (List (String × String)) := none)
    (threshold : ℚ := CONFIDENCE_THRESHOLD) : List (String × FieldResult) :=
  let prio := (resolveProfile docType).1
  let la := layerAOf raw docType
  let lb := layerBOf raw docType
  let rc := resolvedOf raw docType llmRaw
  CANONICAL_FIELDS.map (fun f =>
    (f,
     if prio.contains f then
       match List.lookup f rc with
       | none => ⟨"", "unresolved", 0, true⟩
       | some c =>
         ⟨c.value,
          if containsKey la f then "A" else if containsKey lb f then "B" else "C",
          round2 (max 0 (min c.confidence 1)),
          decide (c.confidence < threshold)⟩
     else ⟨"", "ignored", 0, false⟩))

/-! ## `src/app.py`: OCR quality flag and cross-document reconciliation -/

def OCR_CONFIDENCE_THRESHOLD : ℚ := 6/10

def OCR_MIN_VALID_WORDS_PER_PAGE : Nat := 5

structure OCRPageMetric where
  page_number : Nat
  characters : Nat
  valid_words : Nat
  estimated_confidence : ℚ
  rotation_applied : ℚ
deriving DecidableEq

/-- Modelled from the spec: the document-level OCR aggregation is absent from
`src/` (in `src/app.py`, `extract_text_from_pdf` returns only the text while its
caller at line 414 unpacks `(text, ocr_quality, low_ocr_confidence,
extraction_method)`); spec §4.1 defines `low_ocr_confidence = true` iff any
page is below `OCR_CONFIDENCE_THRESHOLD` or under
`OCR_MIN_VALID_WORDS_PER_PAGE` valid words, using the constants that do appear
in `src/app.py`. -/
def isLowOcrConfidence (ms : List OCRPageMetric) : Bool :=
  ms.any (fun m =>
    decide (m.estimated_confidence < OCR_CONFIDENCE_THRESHOLD) ||
    decide (m.valid_words < OCR_MIN_VALID_WORDS_PER_PAGE))

structure LineItem where
  line : String
  quantity : String
  amount : String
deriving DecidableEq

/-- The `DocumentData` dataclass of `src/app.py`; `fields` holds the
`parse_fields` output. -/
structure DocumentData where
  doc_type : String
  filename : String
  extracted_at : String
  raw_text_preview : String
  fields : List (String × FieldResult)
  line_items : List LineItem
  extraction_method : String
  low_ocr_confidence : Bool
  ocr_quality : List OCRPageMetric
deriving DecidableEq

/-- A session's per-role document map (`Dict[str, DocumentData]`), as an
association list in insertion order. -/
abbrev Session := List (String × DocumentData)

/-- The `COMPARATIVE_FIELDS` list: `(key, label)` pairs in source order. -/
def COMPARATIVE_FIELDS : List (String × String) :=
  [("document_number", "Número do documento"),
   ("issue_or_shipment_date", "Data de Emissão / Embarque"),
   ("consignee", "Importador / Consignee"),
   ("consignee_cnpj", "CNPJ do Importador / Consignee"),
   ("shipper", "Exportador / Shipper"),
   ("total_value", "Valor total das invoices"),
   ("po_number", "Número da Ordem de Compra"),
   ("goods_description", "Descrição da Mercadoria"),
   ("freight_value", "Valor do frete"),
   ("freight_term", "Condição do frete"),
   ("incoterm", "INCOTERM"),
   ("origin_country", "País de Origem"),
   ("provenance_country", "País de Procedência"),
   ("acquisition_country", "País de Aquisição"),
   ("pol", "Porto de carregamento (POL)"),
   ("pod", "Porto de descarga (POD)"),
   ("net_weight", "Peso líquido total"),
   ("gross_weight", "Peso bruto total"),
   ("volume_cbm", "Cubagem"),
   ("package_count", "Quantidade de Volumes"),
   ("ncm", "NCMs")]

/-- Modelled from the spec: `compare_docs` iterates a `DOC_TYPES` constant that
is absent from `src/app.py`; the spec's glossary fixes the three document roles
`invoice`, `packing_list`, `bl`, in the order the matrix loop hardcodes. -/
def DOC_TYPES : List String := ["invoice", "packing_list", "bl"]

/-- Modelled from the spec: `MIN_COMPARATIVE_COMPLETENESS_RATIO` is referenced
by `compare_docs` but absent from `src/`; spec §4.3 gives 0.6.  (The source
name ends in a token the development cannot use, hence the camel case.) -/
def minComparativeCompleteness : ℚ := 6/10

/-- Modelled from the spec: `MIN_REQUIRED_COMPLETENESS_RATIO` is referenced by
`compare_docs` but absent from `src/`; spec §4.3 gives 0.8. -/
def minRequiredCompleteness : ℚ := 8/10

/-- Modelled from the spec: `REQUIRED_FIELDS_BY_DOC` is referenced by
`compare_docs` but absent from `src/`, and the spec leaves the per-role lists
unspecified; `compare_docs` below therefore takes the map as a parameter and
the theorems hold for every choice.  This example instantiation is used by the
concrete witnesses. -/
def REQUIRED_FIELDS_BY_DOC_example : String → List String
  | "invoice" => ["document_number", "issue_or_shipment_date", "consignee", "total_value"]
  | "packing_list" => ["document_number", "net_weight", "gross_weight"]
  | "bl" => ["document_number", "pol", "pod"]
  | _ => []

/-- `doc.fields.get(key, {}).get("value", "")`. -/
def fieldValue (doc : DocumentData) (key : String) : String :=
  match List.lookup key doc.fields with
  | some fr => fr.value
  | none => ""

/-- `_get_value_for_comparative_field(doc, doc_type, field_key)`. -/
def getValueForComparativeField (doc : DocumentData) (docType fieldKey : String) : String :=
  if fieldKey = "document_number" then
    let order : List String :=
      match docType with
      | "invoice" => ["invoice_number", "document_number"]
      | "packing_list" => ["packing_list_number", "document_number"]
      | "bl" => ["bl_number", "document_number"]
      | _ => ["document_number"]
    (firstSome order (fun k =>
      let v := fieldValue doc k
      if v = "" then none else some v)).getD ""
  else if fieldKey = "issue_or_shipment_date" then
    (firstSome ["issue_date", "shipment_date", "issue_or_shipment_date", "etd", "eta"]
      (fun k =>
        let v := fieldValue doc k
        if v = "" then none else some v)).getD ""
  else fieldValue doc fieldKey

/-- The value the matrix loop computes for one role and one comparative field:
`_get_value_for_comparative_field(doc, doc_type, field_key) if doc else ""`. -/
def sessVal (sess : Session) (docType fieldKey : String) : String :=
  match List.lookup docType sess with
  | some doc => getValueForComparativeField doc docType fieldKey
  | none => ""

/-- One matrix row: the label and the three per-role values. -/
structure Row where
  fieldLabel : String
  invoice : String
  packing_list : String
  bl : String
deriving DecidableEq

def matrixRow (sess : Session) (fm : String × String) : Row :=
  ⟨fm.2, sessVal sess "invoice" fm.1, sessVal sess "packing_list" fm.1,
   sessVal sess "bl" fm.1⟩

/-- The values appended by `if val: values.append(val.lower())`, in role order. -/
def loweredNonempty (sess : Session) (fieldKey : String) : List String :=
  (DOC_TYPES.map (fun d => sessVal sess d fieldKey)).filterMap (fun v =>
    if v = "" then none else some (lowerStr v))

/-- `len(set(values)) > 1` for a list: some element differs from the first. -/
def moreThanOneDistinct : List String → Bool
  | [] => false
  | x :: xs => xs.any (fun y => y != x)

/-- A divergence/pendency finding.  Each constructor models one of the
f-strings `compare_docs` appends to `divergences`, carrying exactly the values
interpolated into that message. -/
inductive Finding where
  | fieldDivergence (label : String)
  | missingDocs (docs : List String)
  | lowCompleteness (docType : String) (filled total : Nat) (r minr : ℚ)
  | lowRequiredCompleteness (docType : String) (filled total : Nat) (r minr : ℚ)
  | missingRequiredFields (docType : String) (fields : List String)
  | ocrAlert (docs : List String)
deriving DecidableEq

/-- `"Com divergências"` / `"Aprovado"`. -/
inductive Status where
  | comDivergencias
  | aprovado
deriving DecidableEq

/-- The `CompletenessMetrics` dict of `compare_docs`, with the source's keys. -/
structure CompletenessMetrics where
  total_comparative_fields : Nat
  filled_comparative_fields : Nat
  comparative_completeness_ratio : ℚ
  minimum_comparative_ratio : ℚ
  total_required_fields : Nat
  filled_required_fields : Nat
  required_completeness_ratio : ℚ
  minimum_required_ratio : ℚ
  below_minimum : Bool
  below_required_minimum : Bool
  required_fields : List String
  missing_required_fields : List String
  document_present : Bool
deriving DecidableEq

def present (sess : Session) (d : String) : Bool := containsKey sess d

/-- The per-role filled-comparative-field count the matrix loop accumulates. -/
def filledCount (sess : Session) (d : String) : Nat :=
  COMPARATIVE_FIELDS.countP (fun fm => sessVal sess d fm.1 != "")

/-- The initial metrics dict built for every role (lines 282-299). -/
def initMetrics (required : String → List String) (sess : Session) (d : String) :
    CompletenessMetrics :=
  { total_comparative_fields := COMPARATIVE_FIELDS.length
    filled_comparative_fields := 0
    comparative_completeness_ratio := 0
    minimum_comparative_ratio := minComparativeCompleteness
    total_required_fields := (required d).length
    filled_required_fields := 0
    required_completeness_ratio := 0
    minimum_required_ratio := minRequiredCompleteness
    below_minimum := false
    below_required_minimum := false
    required_fields := required d
    missing_required_fields := []
    document_present := present sess d }

/-- The metrics computed for a present role (lines 322-346). -/
def roleMetrics (required : String → List String) (sess : Session) (d : String) :
    CompletenessMetrics :=
  let total := COMPARATIVE_FIELDS.length
  let filled := filledCount sess d
  let compRatio : ℚ := if total = 0 then 0 else (filled : ℚ) / (total : ℚ)
  let missing := (required d).filter (fun rf => sessVal sess d rf = "")
  let totalReq := (required d).length
  let filledReq := totalReq - missing.length
  let reqRatio : ℚ := if totalReq = 0 then 1 else (filledReq : ℚ) / (totalReq : ℚ)
  { total_comparative_fields := total
    filled_comparative_fields := filled
    comparative_completeness_ratio := compRatio
    minimum_comparative_ratio := minComparativeCompleteness
    total_required_fields := totalReq
    filled_required_fields := filledReq
    required_completeness_ratio := reqRatio
    minimum_required_ratio := minRequiredCompleteness
    below_minimum := decide (compRatio < minComparativeCompleteness)
    below_required_minimum := decide (reqRatio < minRequiredCompleteness)
    required_fields := required d
    missing_required_fields := missing
    document_present := true }

/-- The divergence entries appended by the matrix loop (lines 301-315). -/
def fieldDivs (sess : Session) : List Finding :=
  COMPARATIVE_FIELDS.filterMap (fun fm =>
    if moreThanOneDistinct (loweredNonempty sess fm.1) then
      some (.fieldDivergence fm.2)
    else none)

def missingDocsOf (sess : Session) : List String :=
  DOC_TYPES.filter (fun d => !(present sess d))

/-- The missing-documents pendency (lines 317-319). -/
def missingPartOf (sess : Session) : List Finding :=
  if missingDocsOf sess = [] then [] else [.missingDocs (missingDocsOf sess)]

/-- The pendency messages a present role appends, in source order: below
comparative minimum, below required minimum, missing required fields
(lines 348-370). -/
def roleFindings (required : String → List String) (sess : Session) (d : String) :
    List Finding :=
  let m := roleMetrics required sess d
  (if m.below_minimum then
    [.lowCompleteness d m.filled_comparative_fields m.total_comparative_fields
      m.comparative_completeness_ratio minComparativeCompleteness]
   else []) ++
  (if m.below_required_minimum then
    [.lowRequiredCompleteness d m.filled_required_fields m.total_required_fields
      m.required_completeness_ratio minRequiredCompleteness]
   else []) ++
  (if m.missing_required_fields = [] then []
   else [.missingRequiredFields d m.missing_required_fields])

def rolePartOf (required : String → List String) (sess : Session) : List Finding :=
  DOC_TYPES.flatMap (fun d => if present sess d then roleFindings required sess d else [])

/-- `low_completeness_detected` after the role loop. -/
def lowDetectedOf (required : String → List String) (sess : Session) : Bool :=
  DOC_TYPES.any (fun d =>
    present sess d &&
    ((roleMetrics required sess d).below_minimum ||
     (roleMetrics required sess d).below_required_minimum))

/-- `[doc.doc_type for doc in session_docs.values() if doc.low_ocr_confidence]`. -/
def lowQualityDocs (sess : Session) : List String :=
  (sess.filter (fun p => p.2.low_ocr_confidence)).map (fun p => p.2.doc_type)

/-- The OCR-reliability alert (lines 372-376). -/
def ocrPartOf (sess : Session) : List Finding :=
  if lowQualityDocs sess = [] then [] else [.ocrAlert (lowQualityDocs sess)]

def divergencesOf (required : String → List String) (sess : Session) : List Finding :=
  fieldDivs sess ++ missingPartOf sess ++ rolePartOf required sess ++ ocrPartOf sess

structure ComparisonResult where
  status : Status
  matrix : List Row
  divergences : List Finding
  completeness : List (String × CompletenessMetrics)
deriving DecidableEq

/-- `compare_docs(session_docs)` of `src/app.py`.  `required` stands for the
`REQUIRED_FIELDS_BY_DOC` constant that is absent from `src/` (see
`REQUIRED_FIELDS_BY_DOC_example`). -/
def compare_docs (required : String → List String) (sess : Session) : ComparisonResult :=
  let divergences := divergencesOf required sess
  { status :=
      if divergences ≠ [] ∨ lowDetectedOf required sess = true then .comDivergencias
      else .aprovado
    matrix := COMPARATIVE_FIELDS.map (matrixRow sess)
    divergences := divergences
    completeness := DOC_TYPES.map (fun d =>
      (d, if present sess d then roleMetrics required sess d
          else initMetrics required sess d)) }

/-! ## Helper lemmas -/

attribute [local semireducible] Rat.mul Rat.inv Rat.add Rat.sub Rat.ofScientific

theorem firstSome_eq_some {α β : Type} {l : List α} {f : α → Option β} {b : β}
    (h : firstSome l f = some b) : ∃ a ∈ l, f a = some b := by
  induction l with
  | nil => simp [firstSome] at h
  | cons x xs ih =>
    cases hx : f x with
    | some b' =>
      simp only [firstSome, hx] at h
      exact ⟨x, List.mem_cons_self x xs, by rw [hx, h]⟩
    | none =>
      simp only [firstSome, hx] at h
      obtain ⟨a, ha, hfa⟩ := ih h
      exact ⟨a, List.mem_cons_of_mem x ha, hfa⟩

theorem lookup_mem {β : Type} {k : String} {v : β} {l : List (String × β)}
    (h : List.lookup k l = some v) : (k, v) ∈ l := by
  induction l with
  | nil => simp [List.lookup] at h
  | cons p t ih =>
    rw [List.lookup] at h
    cases hk : (k == p.1) with
    | true =>
      simp only [hk] at h
      cases h
      have hkp : k = p.1 := eq_of_beq hk
      rw [hkp]
      exact List.mem_cons_self _ _
    | false =>
      simp only [hk] at h
      exact List.mem_cons_of_mem _ (ih h)

theorem lookup_append_left {β : Type} {k : String} {v : β} {l₁ l₂ : List (String × β)}
    (h : List.lookup k l₁ = some v) : List.lookup k (l₁ ++ l₂) = some v := by
  induction l₁ with
  | nil => simp [List.lookup] at h
  | cons p t ih =>
    rw [List.lookup] at h
    rw [List.cons_append, List.lookup]
    cases hk : (k == p.1) with
    | true => simp only [hk] at h ⊢; exact h
    | false => simp only [hk] at h ⊢; exact ih h

theorem lookup_append_none {β : Type} {k : String} {l₁ l₂ : List (String × β)}
    (h : List.lookup k l₁ = none) : List.lookup k (l₁ ++ l₂) = List.lookup k l₂ := by
  induction l₁ with
  | nil => simp
  | cons p t ih =>
    rw [List.lookup] at h
    rw [List.cons_append, List.lookup]
    cases hk : (k == p.1) with
    | true => simp only [hk] at h; cases h
    | false => simp only [hk] at h ⊢; exact ih h

/-- Looking a present element up in a keyed map of the form
`l.map (fun x => (x, g x))` yields `g` at the first occurrence, hence at `f`
itself. -/
theorem lookup_map_self {β : Type} {f : String} {l : List String} (g : String → β)
    (h : f ∈ l) : List.lookup f (l.map (fun x => (x, g x))) = some (g f) := by
  induction l with
  | nil => cases h
  | cons x xs ih =>
    rw [List.map_cons, List.lookup]
    cases hf : (f == x) with
    | true =>
      have hfx : f = x := eq_of_beq hf
      rw [hfx]
    | false =>
      rcases List.mem_cons.mp h with h' | h'
      · rw [h', beq_self_eq_true] at hf
        cases hf
      · exact ih h'

theorem moreThanOneDistinct_iff (l : List String) :
    moreThanOneDistinct l = true ↔ ∃ a ∈ l, ∃ b ∈ l, a ≠ b := by
  cases l with
  | nil => simp [moreThanOneDistinct]
  | cons x xs =>
    simp only [moreThanOneDistinct, List.any_eq_true, bne_iff_ne]
    constructor
    · rintro ⟨y, hy, hne⟩
      exact ⟨y, List.mem_cons_of_mem _ hy, x, List.mem_cons_self _ _, hne⟩
    · rintro ⟨a, ha, b, hb, hne⟩
      rcases List.mem_cons.mp ha with rfl | ha'
      · rcases List.mem_cons.mp hb with rfl | hb'
        · exact absurd rfl hne
        · exact ⟨b, hb', fun h => hne h.symm⟩
      · rcases List.mem_cons.mp hb with rfl | hb'
        · exact ⟨a, ha', hne⟩
        · by_cases hax : a = x
          · exact ⟨b, hb', fun h => hne (hax.trans h.symm)⟩
          · exact ⟨a, ha', hax⟩

/-! ## Claim C4: document-level OCR confidence aggregation -/

/-- C4. `low_ocr_confidence` is true iff at least one page has estimated
confidence below 0.6 or fewer than 5 valid words: a logical OR across pages. -/
theorem c4_low_ocr_confidence_iff (ms : List OCRPageMetric) :
    isLowOcrConfidence ms = true ↔
      ∃ m ∈ ms, m.estimated_confidence < OCR_CONFIDENCE_THRESHOLD ∨
        m.valid_words < OCR_MIN_VALID_WORDS_PER_PAGE := by
  simp [isLowOcrConfidence, List.any_eq_true]

/-! ## Claim C1: reconciliation totality and missing-roles pendency -/

/-- C1. For every session map (and every required-fields table), `compare_docs`
produces a `ComparisonResult` whose status is one of the two defined statuses,
and when any of the three roles is absent the full list of absent roles is
reported as a missing-documents pendency finding inside the divergence list —
never an exception (the embedding is a total function). -/
theorem c1_compare_docs_total_and_missing_pendency
    (required : String → List String) (sess : Session) :
    ((compare_docs required sess).status = Status.aprovado ∨
      (compare_docs required sess).status = Status.comDivergencias) ∧
    (missingDocsOf sess ≠ [] →
      Finding.missingDocs (missingDocsOf sess) ∈ (compare_docs required sess).divergences) := by
  constructor
  · cases h : (compare_docs required sess).status
    · exact Or.inr rfl
    · exact Or.inl rfl
  · intro hne
    have hmem : Finding.missingDocs (missingDocsOf sess) ∈ missingPartOf sess := by
      rw [missingPartOf, if_neg hne]
      exact List.mem_singleton.mpr rfl
    show Finding.missingDocs (missingDocsOf sess) ∈ divergencesOf required sess
    rw [divergencesOf]
    exact List.mem_append_left _ (List.mem_append_left _ (List.mem_append_right _ hmem))

/-- Witness for C1 at the empty session: all three roles are reported absent. -/
theorem c1_witness :
    Finding.missingDocs ["invoice", "packing_list", "bl"] ∈
      (compare_docs REQUIRED_FIELDS_BY_DOC_example []).divergences := by
  have h := (c1_compare_docs_total_and_missing_pendency REQUIRED_FIELDS_BY_DOC_example []).2
    (by decide)
  exact h

/-! ## Claim C2: `Approved` iff no divergence and no role below a minimum -/

theorem lowDetected_eq_false_iff (required : String → List String) (sess : Session) :
    lowDetectedOf required sess = false ↔
      ∀ d ∈ DOC_TYPES, present sess d = true →
        (roleMetrics required sess d).below_minimum = false ∧
        (roleMetrics required sess d).below_required_minimum = false := by
  rw [lowDetectedOf]
  rw [← Bool.not_eq_true, List.any_eq_true]
  push_neg
  constructor
  · intro h d hd hpres
    have := h d hd
    rw [hpres] at this
    simp only [Bool.true_and, Bool.or_eq_true, not_or, Bool.not_eq_true,
      Bool.or_eq_false_iff] at this
    exact ⟨this.1, this.2⟩
  · intro h d hd
    cases hpres : present sess d with
    | false => simp
    | true =>
      obtain ⟨h1, h2⟩ := h d hd hpres
      simp [h1, h2]

/-- C2. The reconciliation status is `Approved` iff the divergence list is
empty and no role's completeness metrics flag it below the comparative or the
required minimum (both directions); the status is a function of those findings
alone.  Holds for every required-fields table. -/
theorem c2_status_approved_iff (required : String → List String) (sess : Session) :
    (compare_docs required sess).status = Status.aprovado ↔
      ((compare_docs required sess).divergences = [] ∧
       ∀ p ∈ (compare_docs required sess).completeness,
         p.2.below_minimum = false ∧ p.2.below_required_minimum = false) := by
  have hflags : (∀ p ∈ (compare_docs required sess).completeness,
      p.2.below_minimum = false ∧ p.2.below_required_minimum = false) ↔
      ∀ d ∈ DOC_TYPES, present sess d = true →
        (roleMetrics required sess d).below_minimum = false ∧
        (roleMetrics required sess d).below_required_minimum = false := by
    show (∀ p ∈ DOC_TYPES.map (fun d =>
        (d, if present sess d then roleMetrics required sess d
            else initMetrics required sess d)), _ ∧ _) ↔ _
    constructor
    · intro h d hd hpres
      have := h (d, if present sess d then roleMetrics required sess d
          else initMetrics required sess d) (List.mem_map_of_mem _ hd)
      rwa [if_pos hpres] at this
    · intro h p hp
      obtain ⟨d, hd, rfl⟩ := List.mem_map.mp hp
      cases hpres : present sess d with
      | true =>
        simp only [if_pos hpres]
        exact h d hd hpres
      | false =>
        simp only [if_neg (by simp [hpres] : ¬ present sess d = true)]
        exact ⟨rfl, rfl⟩
  have hstat : (compare_docs required sess).status =
      (if divergencesOf required sess ≠ [] ∨ lowDetectedOf required sess = true then
        Status.comDivergencias else Status.aprovado) := rfl
  have hdiv : (compare_docs required sess).divergences = divergencesOf required sess := rfl
  rw [hstat, hdiv, hflags, ← lowDetected_eq_false_iff]
  by_cases hc : divergencesOf required sess ≠ [] ∨ lowDetectedOf required sess = true
  · rw [if_pos hc]
    simp only [iff_iff_implies_and_implies]
    constructor
    · intro h; cases h
    · rintro ⟨h1, h2⟩
      rcases hc with hc | hc
      · exact absurd h1 hc
      · rw [hc] at h2; cases h2
  · rw [if_neg hc]
    push_neg at hc
    simp only [Bool.not_eq_true] at hc
    simp [hc.1, hc.2]

/-! ## Claim C3: divergence emitted iff non-empty values disagree -/

theorem fieldDivergence_mem_divergences_iff (required : String → List String)
    (sess : Session) (label : String) :
    Finding.fieldDivergence label ∈ divergencesOf required sess ↔
      Finding.fieldDivergence label ∈ fieldDivs sess := by
  rw [divergencesOf]
  simp only [List.mem_append]
  constructor
  · rintro (((h | h) | h) | h)
    · exact h
    · exfalso
      revert h
      rw [missingPartOf]
      split <;> simp
    · exfalso
      rw [rolePartOf] at h
      simp only [List.mem_flatMap] at h
      obtain ⟨d, _, hmem⟩ := h
      revert hmem
      split
      · rw [roleFindings]
        simp only [List.mem_append]
        rintro ((h | h) | h) <;> revert h <;> split <;> simp
      · simp
    · exfalso
      revert h
      rw [ocrPartOf]
      split <;> simp
  · intro h
    exact Or.inl (Or.inl (Or.inl h))

theorem mem_fieldDivs_iff (sess : Session) (label : String) :
    Finding.fieldDivergence label ∈ fieldDivs sess ↔
      ∃ fm ∈ COMPARATIVE_FIELDS,
        moreThanOneDistinct (loweredNonempty sess fm.1) = true ∧ fm.2 = label := by
  rw [fieldDivs]
  simp only [List.mem_filterMap]
  constructor
  · rintro ⟨fm, hfm, hres⟩
    revert hres
    split
    · intro h
      refine ⟨fm, hfm, by assumption, ?_⟩
      cases h
      rfl
    · intro h
      cases h
  · rintro ⟨fm, hfm, hcond, rfl⟩
    exact ⟨fm, hfm, by rw [if_pos hcond]⟩

theorem two_le_length_of_mem_mem_ne {α : Type} {a b : α} {l : List α}
    (ha : a ∈ l) (hb : b ∈ l) (h : a ≠ b) : 2 ≤ l.length := by
  cases l with
  | nil => cases ha
  | cons x t =>
    cases t with
    | nil =>
      rw [List.mem_singleton] at ha hb
      exact absurd (ha.trans hb.symm) h
    | cons y u => simp only [List.length_cons]; omega

/-- C3. For every comparative field, the divergence finding naming that field
is in the output iff two or more roles report a non-empty value for it and
those values are not all identical after lowercasing.  Holds for every
required-fields table. -/
theorem c3_divergence_iff_disagreement (required : String → List String)
    (sess : Session) (fm : String × String) (hfm : fm ∈ COMPARATIVE_FIELDS) :
    Finding.fieldDivergence fm.2 ∈ (compare_docs required sess).divergences ↔
      (2 ≤ (loweredNonempty sess fm.1).length ∧
       ∃ a ∈ loweredNonempty sess fm.1, ∃ b ∈ loweredNonempty sess fm.1, a ≠ b) := by
  have hdiv : (compare_docs required sess).divergences = divergencesOf required sess := rfl
  rw [hdiv, fieldDivergence_mem_divergences_iff, mem_fieldDivs_iff]
  constructor
  · rintro ⟨fm', hfm', hcond, heq⟩
    have hnodup : (COMPARATIVE_FIELDS.map (fun fm => fm.2)).Nodup := by decide
    have hinj : fm' = fm := List.inj_on_of_nodup_map hnodup hfm' hfm heq
    subst hinj
    have hpair := (moreThanOneDistinct_iff _).mp hcond
    obtain ⟨a, ha, b, hb, hne⟩ := hpair
    exact ⟨two_le_length_of_mem_mem_ne ha hb hne, a, ha, b, hb, hne⟩
  · rintro ⟨_, hpair⟩
    exact ⟨fm, hfm, (moreThanOneDistinct_iff _).mpr hpair, rfl⟩

/-- Witness for C3: three roles reporting incoterm `FOB`, `FOB`, `CIF` produce
the divergence finding for the `INCOTERM` field. -/
theorem c3_witness :
    Finding.fieldDivergence "INCOTERM" ∈
      (compare_docs REQUIRED_FIELDS_BY_DOC_example
        [("invoice", ⟨"invoice", "", "", "",
           [("incoterm", ⟨"FOB", "A", 1, false⟩)], [], "native", false, []⟩),
         ("packing_list", ⟨"packing_list", "", "", "",
           [("incoterm", ⟨"FOB", "A", 1, false⟩)], [], "native", false, []⟩),
         ("bl", ⟨"bl", "", "", "",
           [("incoterm", ⟨"CIF", "A", 1, false⟩)], [], "native", false, []⟩)]).divergences := by
  exact (c3_divergence_iff_disagreement REQUIRED_FIELDS_BY_DOC_example _
    ("incoterm", "INCOTERM") (by decide)).mpr (by decide)

/-! ## Layer lemmas for the field-resolution pipeline -/

theorem matchAfterAlias_eq_some {line al field : String} {c : Candidate}
    (h : matchAfterAlias line al field = some c) :
    c.confidence = 92/100 ∧
    ∃ g, reSearch (.seq (.str al) (.seq aliasGlue (fieldPattern field).1))
        (fieldPattern field).2.1 (fieldPattern field).2.2 line = some g ∧
      c.value = normalizeSpacesFE g := by
  rw [matchAfterAlias] at h
  cases hs : reSearch (.seq (.str al) (.seq aliasGlue (fieldPattern field).1))
      (fieldPattern field).2.1 (fieldPattern field).2.2 line with
  | none => rw [hs] at h; cases h
  | some g =>
    rw [hs] at h
    cases h
    exact ⟨rfl, g, rfl, rfl⟩

theorem layerAField_eq_some {lines aliases : List String} {field : String} {c : Candidate}
    (h : layerAField lines aliases field = some c) :
    c.confidence = 92/100 ∧ c.value ≠ "" ∧
    ∃ line ∈ lines, ∃ al ∈ aliases, matchAfterAlias line al field = some c := by
  obtain ⟨line, hline, h1⟩ := firstSome_eq_some h
  obtain ⟨al, hal, h2⟩ := firstSome_eq_some h1
  revert h2
  cases hm : matchAfterAlias line al field with
  | none => intro h2; cases h2
  | some c0 =>
    intro h2
    dsimp only at h2
    by_cases hv : c0.value = ""
    · rw [if_pos hv] at h2; cases h2
    · rw [if_neg hv] at h2
      cases h2
      exact ⟨(matchAfterAlias_eq_some hm).1, hv, line, hline, al, hal, hm⟩

theorem layerAGo_mem {lines : List String} {amap : String → List String}
    {prio : List String} {p : String × Candidate} (h : p ∈ layerAGo lines amap prio) :
    p.1 ∈ prio ∧ layerAField lines (amap p.1) p.1 = some p.2 := by
  induction prio with
  | nil => cases h
  | cons f fs ih =>
    rw [layerAGo] at h
    revert h
    cases hf : layerAField lines (amap f) f with
    | none =>
      intro h
      obtain ⟨h1, h2⟩ := ih h
      exact ⟨List.mem_cons_of_mem _ h1, h2⟩
    | some c =>
      intro h
      rcases List.mem_cons.mp h with rfl | h'
      · exact ⟨List.mem_cons_self _ _, hf⟩
      · obtain ⟨h1, h2⟩ := ih h'
        exact ⟨List.mem_cons_of_mem _ h1, h2⟩

theorem extractFromWindow_eq_some {window : List String} {field : String} {c : Candidate}
    (h : extractFromWindow window field = some c) :
    c.confidence = 8/10 ∧ c.value ≠ "" ∧
    ∃ line ∈ window, ∃ g,
      reSearch (fieldPattern field).1 (fieldPattern field).2.1 (fieldPattern field).2.2 line
        = some g ∧ c.value = normalizeSpacesFE g := by
  obtain ⟨line, hline, h1⟩ := firstSome_eq_some h
  revert h1
  cases hs : reSearch (fieldPattern field).1 (fieldPattern field).2.1
      (fieldPattern field).2.2 line with
  | none => intro h1; cases h1
  | some g =>
    intro h1
    dsimp only at h1
    by_cases hv : normalizeSpacesFE g = ""
    · rw [if_pos hv] at h1; cases h1
    · rw [if_neg hv] at h1
      cases h1
      exact ⟨rfl, hv, line, hline, g, hs, rfl⟩

theorem layerBField_eq_some {lines aliases : List String} {field : String} {c : Candidate}
    (h : layerBField lines aliases field = some c) :
    ∃ idx, idx < lines.length ∧ anchorHit lines idx aliases = true ∧
      extractFromWindow (windowSlice lines idx) field = some c := by
  obtain ⟨idx, hidx, h1⟩ := firstSome_eq_some h
  rw [List.mem_range] at hidx
  by_cases ha : anchorHit lines idx aliases = true
  · rw [if_pos ha] at h1
    exact ⟨idx, hidx, ha, h1⟩
  · rw [if_neg ha] at h1
    cases h1

theorem layerBGo_mem {lines : List String} {amap : String → List String}
    {prio : List String} {acc : List (String × Candidate)} {p : String × Candidate}
    (h : p ∈ layerBGo lines amap prio acc) :
    p ∈ acc ∨ (p.1 ∈ prio ∧ layerBField lines (amap p.1) p.1 = some p.2) := by
  induction prio generalizing acc with
  | nil => exact Or.inl h
  | cons f fs ih =>
    rw [layerBGo] at h
    revert h
    by_cases hk : containsKey acc f = true
    · rw [if_pos hk]
      intro h
      rcases ih h with h' | ⟨h1, h2⟩
      · exact Or.inl h'
      · exact Or.inr ⟨List.mem_cons_of_mem _ h1, h2⟩
    · rw [if_neg hk]
      cases hf : layerBField lines (amap f) f with
      | none =>
        intro h
        rcases ih h with h' | ⟨h1, h2⟩
        · exact Or.inl h'
        · exact Or.inr ⟨List.mem_cons_of_mem _ h1, h2⟩
      | some c =>
        intro h
        rcases ih h with h' | ⟨h1, h2⟩
        · rcases List.mem_append.mp h' with h'' | h''
          · exact Or.inl h''
          · rw [List.mem_singleton] at h''
            subst h''
            exact Or.inr ⟨List.mem_cons_self _ _, hf⟩
        · exact Or.inr ⟨List.mem_cons_of_mem _ h1, h2⟩

theorem layerCGo_mem {table : List (String × String)} {prio : List String}
    {acc : List (String × Candidate)} {p : String × Candidate}
    (h : p ∈ layerCGo table prio acc) :
    p ∈ acc ∨ (p.1 ∈ prio ∧ normalizeSpacesFE (valGet table p.1) ≠ "" ∧
      p.2 = ⟨normalizeSpacesFE (valGet table p.1), 7/10⟩) := by
  induction prio generalizing acc with
  | nil => exact Or.inl h
  | cons f fs ih =>
    rw [layerCGo] at h
    revert h
    by_cases hk : containsKey acc f = true
    · rw [if_pos hk]
      intro h
      rcases ih h with h' | ⟨h1, h2⟩
      · exact Or.inl h'
      · exact Or.inr ⟨List.mem_cons_of_mem _ h1, h2⟩
    · rw [if_neg hk]
      by_cases hv : normalizeSpacesFE (valGet table f) = ""
      · rw [if_pos hv]
        intro h
        rcases ih h with h' | ⟨h1, h2⟩
        · exact Or.inl h'
        · exact Or.inr ⟨List.mem_cons_of_mem _ h1, h2⟩
      · rw [if_neg hv]
        intro h
        rcases ih h with h' | ⟨h1, h2⟩
        · rcases List.mem_append.mp h' with h'' | h''
          · exact Or.inl h''
          · rw [List.mem_singleton] at h''
            subst h''
            exact Or.inr ⟨List.mem_cons_self _ _, hv, rfl⟩
        · exact Or.inr ⟨List.mem_cons_of_mem _ h1, h2⟩

theorem applyDNF_mem {rc : List (String × Candidate)} {docType : String}
    {p : String × Candidate} (h : p ∈ applyDocumentNumberFallback rc docType) :
    p ∈ rc ∨ (p.1 = "document_number" ∧
      ∃ fb c0, DOC_NUMBER_FALLBACK_BY_TYPE (lowerStr docType) = some fb ∧
        List.lookup fb rc = some c0 ∧ p.2 = ⟨c0.value, c0.confidence⟩) := by
  rw [applyDocumentNumberFallback] at h
  revert h
  cases hfb : DOC_NUMBER_FALLBACK_BY_TYPE (lowerStr docType) with
  | none => exact Or.inl
  | some fb =>
    dsimp only
    by_cases hk : containsKey rc "document_number" = true
    · rw [if_pos hk]
      exact Or.inl
    · rw [if_neg hk]
      cases hc : List.lookup fb rc with
      | none => exact Or.inl
      | some c0 =>
        dsimp only
        intro h
        rcases List.mem_append.mp h with h' | h'
        · exact Or.inl h'
        · rw [List.mem_singleton] at h'
          subst h'
          exact Or.inr ⟨rfl, fb, c0, rfl, hc, rfl⟩

/-! Lookup preservation: once a field is resolved, later layers never change it. -/

theorem layerBGo_lookup_pres {lines : List String} {amap : String → List String}
    {prio : List String} {acc : List (String × Candidate)} {f : String} {c : Candidate}
    (h : List.lookup f acc = some c) :
    List.lookup f (layerBGo lines amap prio acc) = some c := by
  induction prio generalizing acc with
  | nil => exact h
  | cons g gs ih =>
    rw [layerBGo]
    by_cases hk : containsKey acc g = true
    · rw [if_pos hk]; exact ih h
    · rw [if_neg hk]
      cases hf : layerBField lines (amap g) g with
      | none => exact ih h
      | some c0 => exact ih (lookup_append_left h)

theorem layerCGo_lookup_pres {table : List (String × String)} {prio : List String}
    {acc : List (String × Candidate)} {f : String} {c : Candidate}
    (h : List.lookup f acc = some c) :
    List.lookup f (layerCGo table prio acc) = some c := by
  induction prio generalizing acc with
  | nil => exact h
  | cons g gs ih =>
    rw [layerCGo]
    by_cases hk : containsKey acc g = true
    · rw [if_pos hk]; exact ih h
    · rw [if_neg hk]
      by_cases hv : normalizeSpacesFE (valGet table g) = ""
      · rw [if_pos hv]; exact ih h
      · rw [if_neg hv]; exact ih (lookup_append_left h)

theorem applyDNF_lookup_pres {rc : List (String × Candidate)} {docType : String}
    {f : String} {c : Candidate} (h : List.lookup f rc = some c) :
    List.lookup f (applyDocumentNumberFallback rc docType) = some c := by
  rw [applyDocumentNumberFallback]
  cases hfb : DOC_NUMBER_FALLBACK_BY_TYPE (lowerStr docType) with
  | none => exact h
  | some fb =>
    dsimp only
    by_cases hk : containsKey rc "document_number" = true
    · rw [if_pos hk]; exact h
    · rw [if_neg hk]
      cases hc : List.lookup fb rc with
      | none => exact h
      | some c0 => exact lookup_append_left h

theorem contains_iff {l : List String} {a : String} : l.contains a = true ↔ a ∈ l := by
  simp [List.contains, List.elem_iff]

/-- Every field in the resolved scope is canonical. -/
theorem scope_subset_canonical {docType f : String}
    (h : f ∈ (resolveProfile docType).1) : f ∈ CANONICAL_FIELDS := by
  simp only [resolveProfile] at h
  revert h
  by_cases hc : (((profileFieldPriority (lowerStr docType)).getD CANONICAL_FIELDS).filter
      (fun f => CANONICAL_FIELDS.contains f)).contains "document_number" = true
  · rw [if_pos hc]
    intro h
    exact contains_iff.mp (List.mem_filter.mp h).2
  · rw [if_neg hc]
    intro h
    rw [insertAt] at h
    rcases List.mem_append.mp h with h' | h'
    · exact contains_iff.mp
        (List.mem_filter.mp ((List.take_sublist _ _).subset h')).2
    · rcases List.mem_cons.mp h' with rfl | h''
      · decide
      · exact contains_iff.mp
          (List.mem_filter.mp ((List.drop_sublist _ _).subset h'')).2

theorem docnum_insert_mem (l : List String) :
    "document_number" ∈
      (if l.contains "document_number" then l
       else insertAt (if l.length > 1 then 1 else 0) "document_number" l) := by
  by_cases hc : l.contains "document_number" = true
  · rw [if_pos hc]
    exact contains_iff.mp hc
  · rw [if_neg hc]
    rw [insertAt]
    exact List.mem_append_right _ (List.mem_cons_self _ _)

/-- `document_number` is always forced into scope by `_resolve_profile`. -/
theorem docnum_mem_scope (docType : String) :
    "document_number" ∈ (resolveProfile docType).1 :=
  docnum_insert_mem _

/-- Every candidate the pipeline accepts carries one of the three layer
confidences 0.92, 0.8, 0.7. -/
theorem resolvedOf_conf {raw docType : String} {llm : Option (List (String × String))}
    {p : String × Candidate} (h : p ∈ resolvedOf raw docType llm) :
    p.2.confidence = 92/100 ∨ p.2.confidence = 8/10 ∨ p.2.confidence = 7/10 := by
  have hlc : ∀ q : String × Candidate, q ∈ layerCOf raw docType llm →
      q.2.confidence = 92/100 ∨ q.2.confidence = 8/10 ∨ q.2.confidence = 7/10 := by
    intro q hq
    rcases layerCGo_mem hq with hq' | ⟨_, _, hq2⟩
    · rcases layerBGo_mem hq' with hq'' | ⟨_, hb⟩
      · obtain ⟨_, ha⟩ := layerAGo_mem hq''
        exact Or.inl (layerAField_eq_some ha).1
      · obtain ⟨idx, _, _, he⟩ := layerBField_eq_some hb
        exact Or.inr (Or.inl (extractFromWindow_eq_some he).1)
    · rw [hq2]
      exact Or.inr (Or.inr rfl)
  rcases applyDNF_mem h with h' | ⟨_, fb, c0, _, hlook, h2⟩
  · exact hlc p h'
  · have hc0 := hlc (fb, c0) (lookup_mem hlook)
    rw [h2]
    simpa using hc0

/-! ## Claim C5: the FieldResult data-model invariant -/

/-- C5. Every `FieldResult` that `parse_fields` returns satisfies the data-model
invariant: when a value exists, `pending_review` holds exactly when the reported
confidence is below the 0.75 threshold and the confidence lies in `[0, 1]`;
out-of-scope fields are `ignored` with confidence 0 and no pending review;
in-scope fields with no accepted candidate are `unresolved` with confidence 0
and pending review. -/
theorem c5_field_result_invariant (raw docType : String)
    (llm : Option (List (String × String))) (p : String × FieldResult)
    (h : p ∈ parse_fields raw docType llm) :
    (p.2.value ≠ "" →
      ((p.2.pending_review = true ↔ p.2.confidence < CONFIDENCE_THRESHOLD) ∧
       0 ≤ p.2.confidence ∧ p.2.confidence ≤ 1)) ∧
    (p.1 ∉ (resolveProfile docType).1 → p.2 = ⟨"", "ignored", 0, false⟩) ∧
    (p.1 ∈ (resolveProfile docType).1 →
      List.lookup p.1 (resolvedOf raw docType llm) = none →
      p.2 = ⟨"", "unresolved", 0, true⟩) := by
  simp only [parse_fields] at h
  obtain ⟨f, hf, rfl⟩ := List.mem_map.mp h
  by_cases hscope : (resolveProfile docType).1.contains f = true
  · rw [if_pos hscope]
    cases hlook : List.lookup f (resolvedOf raw docType llm) with
    | none =>
      refine ⟨?_, ?_, ?_⟩
      · intro hv
        exact absurd rfl hv
      · intro hnot
        exact absurd (contains_iff.mp hscope) hnot
      · intro _ _
        rfl
    | some c =>
      refine ⟨?_, ?_, ?_⟩
      · intro _
        have hconf := resolvedOf_conf (lookup_mem hlook)
        simp only at hconf
        dsimp only
        rcases hconf with hc | hc | hc <;> rw [hc] <;>
          exact ⟨by decide, by decide, by decide⟩
      · intro hnot
        exact absurd (contains_iff.mp hscope) hnot
      · intro _ hnone
        cases hnone
  · rw [if_neg hscope]
    refine ⟨?_, ?_, ?_⟩
    · intro hv
      exact absurd rfl hv
    · intro _
      rfl
    · intro hmem _
      exact absurd (contains_iff.mpr hmem) hscope

/-- Witness for C5: a resolved field (`consignee_cnpj` from the local Layer C
heuristics, value present, confidence 0.7, pending review) and the invariant
instantiated at it. -/
theorem c5_witness :
    ("consignee_cnpj", (⟨"12345678901234", "C", 7/10, true⟩ : FieldResult)) ∈
        parse_fields "cnpj:12345678901234" "invoice" none ∧
    ((⟨"12345678901234", "C", 7/10, true⟩ : FieldResult).pending_review = true ↔
      (⟨"12345678901234", "C", 7/10, true⟩ : FieldResult).confidence < CONFIDENCE_THRESHOLD) := by
  refine ⟨by decide, ?_⟩
  exact ((c5_field_result_invariant "cnpj:12345678901234" "invoice" none
    ("consignee_cnpj", (⟨"12345678901234", "C", 7/10, true⟩ : FieldResult))
    (by decide)).1 (by decide)).1

/-! ## Claim C6: which layer `source_layer` reports -/

/-- What `parse_fields` reports for any canonical field, as a lookup. -/
theorem parse_fields_lookup (raw docType : String)
    (llm : Option (List (String × String))) (threshold : ℚ) {f : String}
    (hf : f ∈ CANONICAL_FIELDS) :
    List.lookup f (parse_fields raw docType llm threshold) = some
      (if (resolveProfile docType).1.contains f then
        match List.lookup f (resolvedOf raw docType llm) with
        | none => ⟨"", "unresolved", 0, true⟩
        | some c =>
          ⟨c.value,
           if containsKey (layerAOf raw docType) f then "A"
           else if containsKey (layerBOf raw docType) f then "B" else "C",
           round2 (max 0 (min c.confidence 1)),
           decide (c.confidence < threshold)⟩
      else ⟨"", "ignored", 0, false⟩) := by
  simp only [parse_fields]
  exact lookup_map_self _ hf

/-- Counterexample to C6 as stated: on `"INV# AB-1"` Layer A resolves
`invoice_number` with confidence 0.92; `document_number` is filled by the
post-layer fallback from that Layer-A candidate, yet is reported with
`source_layer = "C"` (not `"A"`), while carrying the Layer-A confidence 0.92. -/
theorem c6_counterexample :
    List.lookup "invoice_number" (layerAOf "INV# AB-1" "invoice") =
      some ⟨"AB-1", 92/100⟩ ∧
    List.lookup "document_number" (parse_fields "INV# AB-1" "invoice" none) =
      some ⟨"AB-1", "C", 92/100, false⟩ ∧
    (⟨"AB-1", "C", 92/100, false⟩ : FieldResult).source_layer ≠ "A" :=
  ⟨by decide, by decide, by decide⟩

/-- C6 (amended). A field that Layer A itself resolved is reported with
`source_layer = "A"`; but `document_number`, when filled by the post-layer
fallback from the role-specific number field's candidate, is reported with
`source_layer = "C"` while keeping the originating candidate's value and
confidence. -/
theorem c6_source_layer_amended (raw docType : String)
    (llm : Option (List (String × String))) :
    (∀ f c, List.lookup f (layerAOf raw docType) = some c →
      List.lookup f (parse_fields raw docType llm) =
        some ⟨c.value, "A", round2 (max 0 (min c.confidence 1)),
              decide (c.confidence < CONFIDENCE_THRESHOLD)⟩) ∧
    (∀ fb c, DOC_NUMBER_FALLBACK_BY_TYPE (lowerStr docType) = some fb →
      List.lookup "document_number" (layerCOf raw docType llm) = none →
      List.lookup fb (layerCOf raw docType llm) = some c →
      List.lookup "document_number" (parse_fields raw docType llm) =
        some ⟨c.value, "C", round2 (max 0 (min c.confidence 1)),
              decide (c.confidence < CONFIDENCE_THRESHOLD)⟩) := by
  constructor
  · intro f c hA
    have hfprio : f ∈ (resolveProfile docType).1 := (layerAGo_mem (lookup_mem hA)).1
    have hcanon : f ∈ CANONICAL_FIELDS := scope_subset_canonical hfprio
    have hB : List.lookup f (layerBOf raw docType) = some c := layerBGo_lookup_pres hA
    have hC : List.lookup f (layerCOf raw docType llm) = some c := layerCGo_lookup_pres hB
    have hR : List.lookup f (resolvedOf raw docType llm) = some c := applyDNF_lookup_pres hC
    rw [parse_fields_lookup raw docType llm CONFIDENCE_THRESHOLD hcanon]
    rw [if_pos (contains_iff.mpr hfprio), hR]
    have hAkey : containsKey (layerAOf raw docType) f = true := by
      rw [containsKey, hA]
      rfl
    dsimp only
    rw [if_pos hAkey]
  · intro fb c hfb hnone hfbC
    have hR : List.lookup "document_number" (resolvedOf raw docType llm) =
        some ⟨c.value, c.confidence⟩ := by
      rw [resolvedOf, applyDocumentNumberFallback, hfb]
      dsimp only
      rw [if_neg (by rw [containsKey, hnone]; simp)]
      rw [hfbC]
      dsimp only
      rw [lookup_append_none hnone]
      rfl
    have hAk : containsKey (layerAOf raw docType) "document_number" = false := by
      cases hA : List.lookup "document_number" (layerAOf raw docType) with
      | none => rw [containsKey, hA]; rfl
      | some c0 =>
        have hC0 : List.lookup "document_number" (layerCOf raw docType llm) = some c0 :=
          layerCGo_lookup_pres (layerBGo_lookup_pres hA)
        rw [hnone] at hC0
        cases hC0
    have hBk : containsKey (layerBOf raw docType) "document_number" = false := by
      cases hB : List.lookup "document_number" (layerBOf raw docType) with
      | none => rw [containsKey, hB]; rfl
      | some c0 =>
        have hC0 : List.lookup "document_number" (layerCOf raw docType llm) = some c0 :=
          layerCGo_lookup_pres hB
        rw [hnone] at hC0
        cases hC0
    rw [parse_fields_lookup raw docType llm CONFIDENCE_THRESHOLD (by decide)]
    rw [if_pos (contains_iff.mpr (docnum_mem_scope docType)), hR]
    dsimp only
    rw [if_neg (by rw [hAk]; simp), if_neg (by rw [hBk]; simp)]

/-- Witness for C6 (amended), on `"INV# CD-2"` for the invoice role: both the
Layer-A branch and the fallback branch of the amended statement, with every
hypothesis discharged concretely. -/
theorem c6_witness :
    List.lookup "invoice_number" (parse_fields "INV# CD-2" "invoice" none) =
      some ⟨"CD-2", "A", round2 (max 0 (min (92/100) 1)),
            decide ((92/100 : ℚ) < CONFIDENCE_THRESHOLD)⟩ ∧
    List.lookup "document_number" (parse_fields "INV# CD-2" "invoice" none) =
      some ⟨"CD-2", "C", round2 (max 0 (min (92/100) 1)),
            decide ((92/100 : ℚ) < CONFIDENCE_THRESHOLD)⟩ := by
  constructor
  · exact (c6_source_layer_amended "INV# CD-2" "invoice" none).1 "invoice_number"
      ⟨"CD-2", 92/100⟩ (by decide)
  · exact (c6_source_layer_amended "INV# CD-2" "invoice" none).2 "invoice_number"
      ⟨"CD-2", 92/100⟩ (by decide) (by decide) (by decide)

/-! ## Capture-shape lemmas for the matcher -/

theorem length_takeWhile_le' (p : Char → Bool) (l : List Char) :
    (l.takeWhile p).length ≤ l.length := by
  induction l with
  | nil => simp
  | cons c cs ih =>
    rw [List.takeWhile_cons]
    cases p c with
    | true => simpa using ih
    | false => simp

theorem take_all_of_le_takeWhile {p : Char → Bool} :
    ∀ (l : List Char) (k : Nat), k ≤ (l.takeWhile p).length → (l.take k).all p = true := by
  intro l
  induction l with
  | nil =>
    intro k hk
    have hk0 : k = 0 := by simpa using hk
    subst hk0
    simp
  | cons c cs ih =>
    intro k hk
    cases hp : p c with
    | true =>
      simp only [List.takeWhile_cons, hp, if_true, List.length_cons] at hk
      cases k with
      | zero => simp
      | succ k' =>
        rw [List.take_succ_cons, List.all_cons, Bool.and_eq_true]
        exact ⟨hp, ih k' (Nat.succ_le_succ_iff.mp hk)⟩
    | false =>
      simp only [List.takeWhile_cons, hp] at hk
      have hk0 : k = 0 := by simpa using hk
      subst hk0
      simp

theorem repStates_mem {cl : CClass} {lo : Nat} {hi : Option Nat} {prev : Option Char}
    {s : List Char} {st : MState} (h : st ∈ repStates cl lo hi prev s) :
    ∃ k, lo ≤ k ∧ (∀ n, hi = some n → k ≤ n) ∧
      k ≤ (s.takeWhile cl.mem).length ∧ st.2 = s.drop k := by
  unfold repStates at h
  cases hi with
  | none =>
    dsimp only at h
    by_cases hlt : (s.takeWhile cl.mem).length < lo
    · rw [if_pos hlt] at h; cases h
    · rw [if_neg hlt] at h
      obtain ⟨i, hi_mem, heq⟩ := List.mem_map.mp h
      rw [List.mem_range] at hi_mem
      refine ⟨(s.takeWhile cl.mem).length - i, by omega, ?_, by omega, ?_⟩
      · intro n hn; cases hn
      · rw [← heq]
  | some n =>
    dsimp only at h
    by_cases hlt : min (s.takeWhile cl.mem).length n < lo
    · rw [if_pos hlt] at h; cases h
    · rw [if_neg hlt] at h
      obtain ⟨i, hi_mem, heq⟩ := List.mem_map.mp h
      rw [List.mem_range] at hi_mem
      have h1 : min (s.takeWhile cl.mem).length n ≤ (s.takeWhile cl.mem).length :=
        Nat.min_le_left _ _
      have h2 : min (s.takeWhile cl.mem).length n ≤ n := Nat.min_le_right _ _
      refine ⟨min (s.takeWhile cl.mem).length n - i, by omega, ?_, by omega, ?_⟩
      · intro n' hn'
        cases hn'
        omega
      · rw [← heq]

theorem tryFrom_cap_rep {pre : RE} {cl : CClass} {lo : Nat} {hi : Option Nat}
    {prev : Option Char} {s g : List Char}
    (h : tryFrom pre (.rep cl lo hi) .eps prev s = some g) :
    g.all cl.mem = true ∧ lo ≤ g.length ∧ (∀ n, hi = some n → g.length ≤ n) := by
  rw [tryFrom] at h
  obtain ⟨st1, _, h1⟩ := firstSome_eq_some h
  obtain ⟨st2, hst2, h2⟩ := firstSome_eq_some h1
  have heps : runRE .eps st2.1 st2.2 = [(st2.1, st2.2)] := rfl
  rw [heps] at h2
  rw [if_neg (by simp [List.isEmpty])] at h2
  cases h2
  have hrep : st2 ∈ repStates cl lo hi st1.1 st1.2 := hst2
  obtain ⟨k, hlo, hhi, hk, hdrop⟩ := repStates_mem hrep
  have hklen : k ≤ st1.2.length := le_trans hk (length_takeWhile_le' _ _)
  have hlen2 : st2.2.length = st1.2.length - k := by rw [hdrop, List.length_drop]
  have hsub : st1.2.length - st2.2.length = k := by omega
  rw [hsub]
  have hglen : (st1.2.take k).length = k := by
    rw [List.length_take]
    omega
  exact ⟨take_all_of_le_takeWhile st1.2 k hk, by omega,
    fun n hn => by have := hhi n hn; omega⟩

theorem searchAux_cap_rep {pre : RE} {cl : CClass} {lo : Nat} {hi : Option Nat}
    {g : List Char} :
    ∀ (s : List Char) (prev : Option Char),
      searchAux pre (.rep cl lo hi) .eps prev s = some g →
      g.all cl.mem = true ∧ lo ≤ g.length ∧ (∀ n, hi = some n → g.length ≤ n) := by
  intro s
  induction s with
  | nil =>
    intro prev h
    rw [searchAux] at h
    revert h
    cases ht : tryFrom pre (.rep cl lo hi) .eps prev [] with
    | some g' =>
      intro h
      cases h
      exact tryFrom_cap_rep ht
    | none =>
      intro h
      cases h
  | cons c rest ih =>
    intro prev h
    rw [searchAux] at h
    revert h
    cases ht : tryFrom pre (.rep cl lo hi) .eps prev (c :: rest) with
    | some g' =>
      intro h
      cases h
      exact tryFrom_cap_rep ht
    | none =>
      intro h
      exact ih (some c) h

/-- Any group-1 value captured by a pattern whose capturing group is the
character-class repetition `C{lo,hi}` consists of characters of that class,
with length between `lo` and `hi`. -/
theorem reSearch_cap_rep {pre : RE} {cl : CClass} {lo : Nat} {hi : Option Nat}
    {s g : String} (h : reSearch pre (.rep cl lo hi) .eps s = some g) :
    g.toList.all cl.mem = true ∧ lo ≤ g.toList.length ∧
      (∀ n, hi = some n → g.toList.length ≤ n) := by
  rw [reSearch] at h
  revert h
  cases hs : searchAux pre (.rep cl lo hi) .eps none s.toList with
  | none =>
    intro h
    cases h
  | some l =>
    intro h
    cases h
    exact searchAux_cap_rep s.toList none hs

/-! ## `normalize_spaces` preserves whitespace-free character shapes -/

theorem cnpj_not_ws {c : Char} (h : CClass.mem .cnpj c = true) : isSpaceCharB c = false := by
  by_contra hw
  rw [Bool.not_eq_false] at hw
  simp only [isSpaceCharB, Bool.or_eq_true, decide_eq_true_eq] at hw
  rcases hw with ((((rfl | rfl) | rfl) | rfl) | rfl) | rfl <;> exact absurd h (by decide)

theorem collapseWs_no_ws {l : List Char} (h : ∀ c ∈ l, isSpaceCharB c = false) :
    ∀ b, collapseWsAux b l = l := by
  induction l with
  | nil => intro b; rfl
  | cons c cs ih =>
    intro b
    rw [collapseWsAux]
    rw [if_neg (by rw [h c (List.mem_cons_self _ _)]; simp)]
    rw [ih (fun c hc => h c (List.mem_cons_of_mem _ hc)) false]

theorem all_dropWhile {p q : Char → Bool} {l : List Char} (h : l.all p = true) :
    (l.dropWhile q).all p = true := by
  induction l with
  | nil => simp
  | cons c cs ih =>
    rw [List.dropWhile_cons]
    rw [List.all_cons, Bool.and_eq_true] at h
    by_cases hq : q c = true
    · rw [if_pos hq]
      exact ih h.2
    · rw [if_neg hq]
      rw [List.all_cons, Bool.and_eq_true]
      exact ⟨h.1, h.2⟩

theorem length_dropWhile_le' (q : Char → Bool) (l : List Char) :
    (l.dropWhile q).length ≤ l.length := by
  induction l with
  | nil => simp
  | cons c cs ih =>
    rw [List.dropWhile_cons]
    by_cases hq : q c = true
    · rw [if_pos hq]
      exact le_trans ih (Nat.le_succ _)
    · rw [if_neg hq]

theorem stripBoth_all {p q : Char → Bool} {l : List Char} (h : l.all p = true) :
    (stripBoth q l).all p = true := by
  rw [stripBoth]
  rw [List.all_reverse]
  apply all_dropWhile
  rw [List.all_reverse]
  exact all_dropWhile h

theorem stripBoth_length_le (q : Char → Bool) (l : List Char) :
    (stripBoth q l).length ≤ l.length := by
  rw [stripBoth, List.length_reverse]
  refine le_trans (length_dropWhile_le' _ _) ?_
  rw [List.length_reverse]
  exact length_dropWhile_le' _ _

/-- `normalize_spaces` maps a whitespace-free cnpj-class string to a cnpj-class
string that is no longer. -/
theorem normalizeSpacesFE_cnpj {s : String}
    (hall : s.toList.all (CClass.mem .cnpj) = true) :
    (normalizeSpacesFE s).toList.all (CClass.mem .cnpj) = true ∧
    (normalizeSpacesFE s).toList.length ≤ s.toList.length := by
  have hno : ∀ c ∈ s.toList, isSpaceCharB c = false := by
    intro c hc
    exact cnpj_not_ws (by
      rw [List.all_eq_true] at hall
      exact hall c hc)
  have hcoll : collapseWsAux false s.toList = s.toList := collapseWs_no_ws hno false
  constructor
  · show (stripBoth isStripCharB (collapseWsAux false s.toList)).all _ = true
    rw [hcoll]
    exact stripBoth_all hall
  · show (stripBoth isStripCharB (collapseWsAux false s.toList)).length ≤ _
    rw [hcoll]
    exact stripBoth_length_le _ _

/-! ## Claim C7: value shape of accepted national tax ids -/

theorem valGet_init {prio : List String} {key : String} :
    valGet (prio.map (fun k => (k, ""))) key = "" := by
  rw [valGet]
  cases h : List.lookup key (prio.map fun k => (k, "")) with
  | none => rfl
  | some v =>
    obtain ⟨a, _, heq⟩ := List.mem_map.mp (lookup_mem h)
    cases heq
    rfl

theorem valGet_updateAssoc_ne {m : List (String × String)} {k v k' : String}
    (h : k' ≠ k) : valGet (updateAssoc m k v) k' = valGet m k' := by
  induction m with
  | nil => rfl
  | cons p t ih =>
    rw [updateAssoc]
    by_cases hk : p.1 = k
    · rw [if_pos hk]
      rw [valGet, valGet, List.lookup, List.lookup]
      have hne : (k' == p.1) = false := by
        rw [beq_eq_false_iff_ne]
        rw [hk]
        exact h
      rw [hne]
    · rw [if_neg hk]
      rw [valGet, valGet, List.lookup, List.lookup]
      cases hk' : (k' == p.1) with
      | true => rfl
      | false => exact ih

theorem valGet_updateAssoc_self {m : List (String × String)} {k v : String}
    (h : containsKey m k = true) : valGet (updateAssoc m k v) k = v := by
  induction m with
  | nil => cases h
  | cons p t ih =>
    rw [updateAssoc]
    by_cases hk : p.1 = k
    · rw [if_pos hk]
      rw [valGet, List.lookup]
      have : (k == p.1) = true := by rw [hk]; exact beq_self_eq_true k
      rw [this]
      rfl
    · rw [if_neg hk]
      rw [valGet, List.lookup]
      have hne : (k == p.1) = false := by
        rw [beq_eq_false_iff_ne]
        exact fun he => hk he.symm
      rw [hne]
      rw [containsKey, List.lookup, hne] at h
      exact ih h

theorem valGet_setOrAppend_ne {m : List (String × String)} {k v k' : String}
    (h : k' ≠ k) : valGet (setOrAppend m k v) k' = valGet m k' := by
  rw [setOrAppend]
  by_cases hc : containsKey m k = true
  · rw [if_pos hc]
    exact valGet_updateAssoc_ne h
  · rw [if_neg hc]
    rw [valGet, valGet]
    cases hl : List.lookup k' m with
    | some w => rw [lookup_append_left hl]
    | none =>
      rw [lookup_append_none hl]
      have hne : (k' == k) = false := by rw [beq_eq_false_iff_ne]; exact h
      rw [List.lookup, hne]
      rfl

theorem valGet_nerDocNumMirror_ne {docType : String} {m : List (String × String)}
    {k : String} (h : k ≠ "document_number") :
    valGet (nerDocNumMirror docType m) k = valGet m k := by
  rw [nerDocNumMirror]
  cases DOC_NUMBER_FALLBACK_BY_TYPE (lowerStr docType) with
  | none => rfl
  | some fb =>
    dsimp only
    split
    · exact valGet_updateAssoc_ne h
    · rfl

theorem valGet_nerDateMirror1_ne {m : List (String × String)} {k : String}
    (h : k ≠ "issue_or_shipment_date") :
    valGet (nerDateMirror1 m) k = valGet m k := by
  rw [nerDateMirror1]
  split
  · exact valGet_setOrAppend_ne h
  · rfl

theorem valGet_nerDateMirror2_ne {m : List (String × String)} {k : String}
    (h : k ≠ "shipment_date") :
    valGet (nerDateMirror2 m) k = valGet m k := by
  rw [nerDateMirror2]
  split
  · exact valGet_setOrAppend_ne h
  · rfl

/-- After the pattern pass, a key either still holds the initial empty string
or holds the normalized group-1 of the whole-text search of one of its table
patterns. -/
theorem nerFold_valGet (raw key : String) :
    ∀ (ps : List (String × RE × RE)) (acc : List (String × String)),
      valGet (ps.foldl (nerStep raw) acc) key = valGet acc key ∨
      ∃ pat ∈ ps, pat.1 = key ∧ ∃ g, reSearch pat.2.1 pat.2.2 .eps raw = some g ∧
        valGet (ps.foldl (nerStep raw) acc) key = normalizeSpacesFE g := by
  intro ps
  induction ps with
  | nil =>
    intro acc
    left
    rfl
  | cons pat ps ih =>
    intro acc
    rw [List.foldl_cons]
    rcases ih (nerStep raw acc pat) with h | ⟨pat', hm, hk, g, hg, hv⟩
    · rw [h, nerStep]
      by_cases hck : containsKey acc pat.1 = true
      · rw [if_pos hck]
        cases hs : reSearch pat.2.1 pat.2.2 .eps raw with
        | none => left; rfl
        | some g =>
          by_cases hkey : pat.1 = key
          · right
            refine ⟨pat, List.mem_cons_self _ _, hkey, g, hs, ?_⟩
            rw [← hkey]
            exact valGet_updateAssoc_self hck
          · left
            exact valGet_updateAssoc_ne (fun he => hkey he.symm)
      · rw [if_neg hck]
        left
        rfl
    · right
      exact ⟨pat', List.mem_cons_of_mem _ hm, hk, g, hg, hv⟩

theorem valGet_patternPass (raw : String) (prio : List String) (key : String) :
    valGet (patternPass raw prio) key = "" ∨
    ∃ pat ∈ NER_PATTERNS, pat.1 = key ∧ ∃ g,
      reSearch pat.2.1 pat.2.2 .eps raw = some g ∧
      valGet (patternPass raw prio) key = normalizeSpacesFE g := by
  rcases nerFold_valGet raw key NER_PATTERNS (prio.map (fun k => (k, ""))) with h | h
  · left
    rw [patternPass, h, valGet_init]
  · right
    exact h

theorem valGet_patternPass_not_ner (raw : String) (prio : List String) (key : String)
    (h : ∀ pat ∈ NER_PATTERNS, pat.1 ≠ key) : valGet (patternPass raw prio) key = "" := by
  rcases valGet_patternPass raw prio key with h' | ⟨pat, hm, hk, _⟩
  · exact h'
  · exact absurd hk (h pat hm)

theorem ner_cnpj_cap : ∀ pat ∈ NER_PATTERNS, pat.1 = "consignee_cnpj" →
    pat.2.2 = RE.rep .cnpj 14 (some 20) := by decide

theorem applyDNF_lookup_ne {rc : List (String × Candidate)} {docType k : String}
    (hk : k ≠ "document_number") :
    List.lookup k (applyDocumentNumberFallback rc docType) = List.lookup k rc := by
  rw [applyDocumentNumberFallback]
  cases DOC_NUMBER_FALLBACK_BY_TYPE (lowerStr docType) with
  | none => rfl
  | some fb =>
    dsimp only
    split
    · rfl
    · cases hc : List.lookup fb rc with
      | none => rfl
      | some c0 =>
        dsimp only
        cases hl : List.lookup k rc with
        | some w => exact lookup_append_left hl
        | none =>
          rw [lookup_append_none hl]
          have hne : (k == "document_number") = false := by
            rw [beq_eq_false_iff_ne]
            exact hk
          rw [List.lookup, hne]
          rfl

/-- The normalized value of a string of cnpj-class characters of length at
most 20 again has cnpj-class characters and length at most 20. -/
theorem norm_cnpj_bound {s : String} (hall : s.toList.all (CClass.mem .cnpj) = true)
    (hlen : s.toList.length ≤ 20) :
    (normalizeSpacesFE s).toList.all (CClass.mem .cnpj) = true ∧
    (normalizeSpacesFE s).toList.length ≤ 20 := by
  obtain ⟨h1, h2⟩ := normalizeSpacesFE_cnpj hall
  exact ⟨h1, le_trans h2 hlen⟩

/-- Counterexample to C7 as stated: the raw text `"cnpj:123456789012345"`
(15 digits) yields an accepted `consignee_cnpj` value of 15 digits — the code
never checks for exactly 14 digits, it only matches 14-20 characters of the
class `[0-9.\/\-]`. -/
theorem c7_counterexample :
    List.lookup "consignee_cnpj" (parse_fields "cnpj:123456789012345" "invoice" none) =
      some ⟨"123456789012345", "C", 7/10, true⟩ ∧
    "123456789012345".toList.countP Char.isDigit = 15 ∧
    "123456789012345".toList.countP Char.isDigit ≠ 14 :=
  ⟨by decide, by decide, by decide⟩

/-- C7 (amended). When the external provider is absent, every value the
pipeline accepts for `consignee_cnpj` consists solely of digits, dots, slashes
and hyphens, at most 20 characters (the captured group matches
`[0-9./\-]{14,20}` and is then trimmed); no exact-14-digit plausibility check
exists, and out-of-range digit counts are accepted. -/
theorem c7_cnpj_shape_amended (raw docType : String) (c : Candidate)
    (h : List.lookup "consignee_cnpj" (resolvedOf raw docType none) = some c) :
    c.value.toList.all (CClass.mem .cnpj) = true ∧ c.value.toList.length ≤ 20 := by
  have hlc : List.lookup "consignee_cnpj" (layerCOf raw docType none) = some c := by
    have he : List.lookup "consignee_cnpj"
        (applyDocumentNumberFallback (layerCOf raw docType none) docType) =
        List.lookup "consignee_cnpj" (layerCOf raw docType none) :=
      applyDNF_lookup_ne (by decide)
    rw [← he]
    exact h
  have hfp : fieldPattern "consignee_cnpj" = (.eps, .rep .cnpj 14 (some 20), .eps) := rfl
  rcases layerCGo_mem (lookup_mem hlc) with hmem | ⟨_, hval, hc2⟩
  · rcases layerBGo_mem hmem with hmemA | ⟨_, hB⟩
    · obtain ⟨_, hA⟩ := layerAGo_mem hmemA
      obtain ⟨_, _, line, _, al, _, hma⟩ := layerAField_eq_some hA
      obtain ⟨_, g, hsearch, hvalA⟩ := matchAfterAlias_eq_some hma
      rw [hfp] at hsearch
      dsimp only at hsearch
      obtain ⟨hall, _, hhi⟩ := reSearch_cap_rep hsearch
      rw [hvalA]
      exact norm_cnpj_bound hall (hhi 20 rfl)
    · obtain ⟨idx, _, _, hE⟩ := layerBField_eq_some hB
      obtain ⟨_, _, line, _, g, hsearch, hvalB⟩ := extractFromWindow_eq_some hE
      rw [hfp] at hsearch
      dsimp only at hsearch
      obtain ⟨hall, _, hhi⟩ := reSearch_cap_rep hsearch
      rw [hvalB]
      exact norm_cnpj_bound hall (hhi 20 rfl)
  · have htable : (match callOpenaiJson none (resolveProfile docType).1 with
        | some m => if m.isEmpty then
            nerStyleFallback raw (resolveProfile docType).1 docType else m
        | none => nerStyleFallback raw (resolveProfile docType).1 docType) =
        nerStyleFallback raw (resolveProfile docType).1 docType := rfl
    rw [htable] at hval hc2
    have hner : valGet (nerStyleFallback raw (resolveProfile docType).1 docType)
        "consignee_cnpj" = valGet (patternPass raw (resolveProfile docType).1)
        "consignee_cnpj" := by
      rw [nerStyleFallback]
      rw [valGet_nerDateMirror2_ne (by decide), valGet_nerDateMirror1_ne (by decide),
        valGet_nerDocNumMirror_ne (by decide)]
    rw [hner] at hval hc2
    rcases valGet_patternPass raw (resolveProfile docType).1 "consignee_cnpj" with
      hpp | ⟨pat, hm, hk, g, hsearch, hpp⟩
    · rw [hpp] at hval
      exact absurd rfl hval
    · rw [ner_cnpj_cap pat hm hk] at hsearch
      obtain ⟨hall, _, hhi⟩ := reSearch_cap_rep hsearch
      have hn1 := norm_cnpj_bound hall (hhi 20 rfl)
      have hn2 := norm_cnpj_bound hn1.1 hn1.2
      have hc2' : c = ⟨normalizeSpacesFE (valGet (patternPass raw (resolveProfile docType).1)
          "consignee_cnpj"), 7/10⟩ := hc2
      rw [hc2']
      dsimp only
      rw [hpp]
      exact hn2

/-- Witness for C7 (amended): the concretely accepted 15-digit value indeed
consists of cnpj-class characters, 20 characters at most. -/
theorem c7_witness :
    "123456789012345".toList.all (CClass.mem .cnpj) = true ∧
    "123456789012345".toList.length ≤ 20 :=
  c7_cnpj_shape_amended "cnpj:123456789012345" "invoice" ⟨"123456789012345", 7/10⟩
    (by decide)

/-! ## Claim C8: what Layer B accepts -/

theorem lookup_none_not_mem {β : Type} {k : String} {v : β} {l : List (String × β)}
    (h : List.lookup k l = none) : (k, v) ∉ l := by
  intro hmem
  induction l with
  | nil => cases hmem
  | cons p t ih =>
    rw [List.lookup] at h
    revert h
    cases hk : (k == p.1) with
    | true => intro h; cases h
    | false =>
      intro h
      rcases List.mem_cons.mp hmem with heq | hmem'
      · rw [← heq] at hk
        rw [beq_self_eq_true] at hk
        cases hk
      · exact ih h hmem'

/-- Counterexample to C8 as stated: for the one-line text
`"Porto de carregamento"` Layer B accepts `pol` from the anchor line itself,
although no character of the text is a delimiter (`:` or `-`). -/
theorem c8_counterexample :
    List.lookup "pol" (layer_b_context "Porto de carregamento" [] ["pol"]
      (resolveProfile "bl").2) = some ⟨"Porto de carregamento", 8/10⟩ ∧
    "Porto de carregamento".toList.all (fun ch => !(ch = ':' || ch = '-')) = true :=
  ⟨by decide, by decide⟩

/-- C8 (amended). A field not already resolved that Layer B resolves got its
candidate from a window of lines around an anchor line containing one of the
field's aliases — the window spans two lines before to two lines after the
anchor (clipped at the text's ends, via `windowSlice`), the first window line
matching the field's value-shape pattern wins (`extractFromWindow`), and the
confidence is fixed at 0.8.  No delimiter-character requirement exists. -/
theorem c8_layer_b_window_amended (raw : String) (already : List (String × Candidate))
    (prio : List String) (amap : String → List String) (f : String) (c : Candidate)
    (hnew : List.lookup f already = none)
    (h : List.lookup f (layer_b_context raw already prio amap) = some c) :
    c.confidence = 8/10 ∧
    ∃ idx, idx < (pyLines raw).length ∧
      anchorHit (pyLines raw) idx (amap f) = true ∧
      extractFromWindow (windowSlice (pyLines raw) idx) f = some c := by
  rcases layerBGo_mem (lookup_mem h) with hmem | ⟨_, hB⟩
  · exact absurd hmem (lookup_none_not_mem hnew)
  · obtain ⟨idx, hlen, hanchor, hE⟩ := layerBField_eq_some hB
    exact ⟨(extractFromWindow_eq_some hE).1, idx, hlen, hanchor, hE⟩

/-- Witness for C8 (amended) at the `pol` example. -/
theorem c8_witness :
    (⟨"Porto de carregamento", 8/10⟩ : Candidate).confidence = 8/10 ∧
    ∃ idx, idx < (pyLines "Porto de carregamento").length ∧
      anchorHit (pyLines "Porto de carregamento") idx ((resolveProfile "bl").2 "pol") = true ∧
      extractFromWindow (windowSlice (pyLines "Porto de carregamento") idx) "pol" =
        some ⟨"Porto de carregamento", 8/10⟩ :=
  c8_layer_b_window_amended "Porto de carregamento" [] ["pol"] (resolveProfile "bl").2
    "pol" ⟨"Porto de carregamento", 8/10⟩ (by decide) (by decide)

/-! ## Claim C9: the issue-or-shipment-date mirror of the local fallback -/

/-- C9. In the local heuristic fallback, whenever the generic
issue-or-shipment-date field is empty after the pattern pass, the returned
value equals the first non-empty value among the issue date, shipment date,
estimated departure and estimated arrival fields of the pattern pass, in that
priority order (all four are empty for every raw text, since the fixed pattern
table contains no rule for any of them; the mirror in the code reads only
`etd`, which is always empty, so the field stays empty on both sides). -/
theorem c9_date_mirror_priority (raw : String) (prio : List String) (docType : String)
    (h : valGet (patternPass raw prio) "issue_or_shipment_date" = "") :
    valGet (nerStyleFallback raw prio docType) "issue_or_shipment_date" =
      ((["issue_date", "shipment_date", "etd", "eta"].map
        (valGet (patternPass raw prio))).find? (fun v => v != "")).getD "" := by
  have hiss : valGet (patternPass raw prio) "issue_date" = "" :=
    valGet_patternPass_not_ner raw prio _ (by decide)
  have hshp : valGet (patternPass raw prio) "shipment_date" = "" :=
    valGet_patternPass_not_ner raw prio _ (by decide)
  have hetd : valGet (patternPass raw prio) "etd" = "" :=
    valGet_patternPass_not_ner raw prio _ (by decide)
  have heta : valGet (patternPass raw prio) "eta" = "" :=
    valGet_patternPass_not_ner raw prio _ (by decide)
  have hrhs : ((["issue_date", "shipment_date", "etd", "eta"].map
      (valGet (patternPass raw prio))).find? (fun v => v != "")).getD "" = "" := by
    simp only [List.map_cons, List.map_nil, hiss, hshp, hetd, heta]
    rfl
  rw [hrhs, nerStyleFallback]
  rw [valGet_nerDateMirror2_ne (by decide)]
  have hetd1 : valGet (nerDocNumMirror docType (patternPass raw prio)) "etd" = "" := by
    rw [valGet_nerDocNumMirror_ne (by decide)]
    exact hetd
  rw [nerDateMirror1]
  rw [if_neg (fun hc => hc.2 hetd1)]
  rw [valGet_nerDocNumMirror_ne (by decide)]
  exact h

/-- Witness for C9: a text that even mentions `etd` leaves every date field of
the pattern pass empty, and the mirrored field is empty on both sides. -/
theorem c9_witness :
    valGet (nerStyleFallback "etd: 01/02/2024"
      ["issue_or_shipment_date", "issue_date", "shipment_date", "etd", "eta"] "bl")
      "issue_or_shipment_date" =
    ((["issue_date", "shipment_date", "etd", "eta"].map
      (valGet (patternPass "etd: 01/02/2024"
        ["issue_or_shipment_date", "issue_date", "shipment_date", "etd", "eta"]))).find?
          (fun v => v != "")).getD "" :=
  c9_date_mirror_priority "etd: 01/02/2024"
    ["issue_or_shipment_date", "issue_date", "shipment_date", "etd", "eta"] "bl"
    (by decide)

/-! ## Claim C10: unknown document types and forced document-number scope -/

/-- Counterexample to C10 as stated: `"Invoice"` is not one of the three role
strings, yet `parse_fields` (which lowercases before the profile lookup)
treats it as the invoice role and reports `pol` as `ignored`. -/
theorem c10_counterexample :
    ¬("Invoice" = "invoice" ∨ "Invoice" = "packing_list" ∨ "Invoice" = "bl") ∧
    List.lookup "pol" (parse_fields "" "Invoice" none) =
      some ⟨"", "ignored", 0, false⟩ :=
  ⟨by decide, by decide⟩

theorem profileFieldPriority_eq_none {s : String}
    (h : s ∉ (["invoice", "packing_list", "bl"] : List String)) :
    profileFieldPriority s = none := by
  unfold profileFieldPriority
  split
  · exact absurd (by simp : "invoice" ∈ (["invoice", "packing_list", "bl"] : List String)) h
  · exact absurd
      (by simp : "packing_list" ∈ (["invoice", "packing_list", "bl"] : List String)) h
  · exact absurd (by simp : "bl" ∈ (["invoice", "packing_list", "bl"] : List String)) h
  · rfl

/-- C10 (amended).  `document_number` is in scope for every document type; and
for every document type whose lowercase form is not one of the three known
roles, no returned `FieldResult` is `ignored`, and fields with no accepted
candidate are reported `unresolved` with confidence 0 and pending review.
(The original claim fails for strings like `"Invoice"` that differ from a role
only by case, because the profile lookup lowercases its argument.) -/
theorem c10_unknown_doc_type_amended (docType raw : String)
    (llm : Option (List (String × String))) :
    "document_number" ∈ (resolveProfile docType).1 ∧
    (lowerStr docType ∉ (["invoice", "packing_list", "bl"] : List String) →
      ∀ p ∈ parse_fields raw docType llm,
        p.2.source_layer ≠ "ignored" ∧
        (List.lookup p.1 (resolvedOf raw docType llm) = none →
          p.2 = ⟨"", "unresolved", 0, true⟩)) := by
  refine ⟨docnum_mem_scope docType, ?_⟩
  intro h p hp
  have hscope : (resolveProfile docType).1 = CANONICAL_FIELDS := by
    simp only [resolveProfile, profileFieldPriority_eq_none h, Option.getD_none]
    have hfilter : CANONICAL_FIELDS.filter (fun f => CANONICAL_FIELDS.contains f) =
        CANONICAL_FIELDS := by decide
    rw [hfilter]
    rw [if_pos (by decide)]
  simp only [parse_fields] at hp
  obtain ⟨f, hf, rfl⟩ := List.mem_map.mp hp
  rw [hscope] at *
  rw [if_pos (contains_iff.mpr hf)]
  cases hlook : List.lookup f (resolvedOf raw docType llm) with
  | none =>
    refine ⟨?_, fun _ => rfl⟩
    dsimp only
    decide
  | some c =>
    constructor
    · dsimp only
      by_cases hA : containsKey (layerAOf raw docType) f = true
      · rw [if_pos hA]; decide
      · rw [if_neg hA]
        by_cases hB : containsKey (layerBOf raw docType) f = true
        · rw [if_pos hB]; decide
        · rw [if_neg hB]; decide
    · intro hnone
      cases hnone

/-- Witness for C10 (amended) at the unknown type `"xyz"`: the `pol` field is
reported `unresolved`, never `ignored`. -/
theorem c10_witness :
    ("pol", (⟨"", "unresolved", 0, true⟩ : FieldResult)).2.source_layer ≠ "ignored" :=
  (((c10_unknown_doc_type_amended "xyz" "" none).2 (by decide))
    ("pol", (⟨"", "unresolved", 0, true⟩ : FieldResult)) (by decide)).1

end Comex
